import Mathlib

/-!
Verification of the 3D-Gomoku move-search engine (8×8×8 five-in-a-row).

The development shallowly embeds the board/rule model, heuristic evaluator,
move generator and minimax search of the repository and proves the behavioural
properties stated in the specification.  Two copies of the heuristic module
exist in the repository (the `src/src/ai/heuristic.ts` file and the variant in
`src/unnamed/part_003`); both are embedded, in the namespaces `Heuristic` and
`HeuristicV2` respectively.
-/

set_option maxRecDepth 100000

namespace Gomoku

/-- A cell coordinate (x, y, z).  The TypeScript code indexes a board value as
`board[z][y][x]` with integer coordinates. -/
abbrev Cell := Int × Int × Int

/-- A direction vector (dx, dy, dz). -/
abbrev Dir := Int × Int × Int

/-- `BoardState3D`: the 8×8×8 grid; a cell holds 0 (empty), 1 or 2.
Modeled as a total function on integer coordinates; every read performed by
the embedded code is guarded by an in-bounds check, exactly as in the source.
A board `b` read at (x, y, z) is written `b z y x`, matching the source's
`board[z][y][x]` indexing order. -/
def Board := Int → Int → Int → Nat

def BOARD_SIZE : Int := 8

def WIN_COUNT : Nat := 5

/-- The per-coordinate bounds test `c >= 0 && c < BOARD_SIZE` used throughout
the source. -/
def inRange (c : Int) : Bool := decide (0 ≤ c) && decide (c < BOARD_SIZE)

/-- `isInBounds(x, y, z)` from heuristic.ts; the same three-fold conjunction is
written inline in the while loops of gameRules.ts, moveGeneration.ts and
App.tsx. -/
def isInBounds (x y z : Int) : Bool := inRange x && inRange y && inRange z

/-- Writing one cell: `board[z][y][x] = v`. -/
def setCell (b : Board) (x y z : Int) (v : Nat) : Board :=
  fun z' y' x' => if z' = z ∧ y' = y ∧ x' = x then v else b z' y' x'

/-- `player === 1 ? 2 : 1`, the opponent computation used throughout. -/
def opp (p : Nat) : Nat := if p = 1 then 2 else 1

/-- The 26 direction vectors, in the order of the `directions` array shared by
gameRules.ts, App.tsx and moveGeneration.ts. -/
def directions : List Dir :=
  [(1, 0, 0), (0, 1, 0), (0, 0, 1),
   (-1, 0, 0), (0, -1, 0), (0, 0, -1),
   (1, 1, 0), (1, -1, 0), (-1, 1, 0), (-1, -1, 0),
   (1, 0, 1), (1, 0, -1), (-1, 0, 1), (-1, 0, -1),
   (0, 1, 1), (0, 1, -1), (0, -1, 1), (0, -1, -1),
   (1, 1, 1), (1, 1, -1), (1, -1, 1), (1, -1, -1),
   (-1, 1, 1), (-1, 1, -1), (-1, -1, 1), (-1, -1, -1)]

/-- All board cells (x, y, z) in the iteration order of the source's triple
loops: z outermost, then y, then x. -/
def allCells : List Cell :=
  (List.range 8).flatMap fun z =>
    (List.range 8).flatMap fun y =>
      (List.range 8).map fun x => ((x : Int), (y : Int), (z : Int))

/-- The while-loop pattern
`while (in bounds && board[z][y][x] === player) { count++; advance; }`:
the number of consecutive `player` cells starting at (x, y, z) in direction
(dx, dy, dz), together with the coordinate reached when the loop exits.
`fuel` bounds the number of iterations; every use passes `fuel = 8`.  On the
8×8×8 board a run along a nonzero direction visits at most 8 cells before the
moving coordinate leaves `[0, 8)`, so fuel 8 never cuts the loop short. -/
def runScan (b : Board) (p : Nat) (x y z dx dy dz : Int) : Nat → Nat × Cell
  | 0 => (0, (x, y, z))
  | fuel + 1 =>
    if isInBounds x y z && (b z y x == p) then
      let r := runScan b p (x + dx) (y + dy) (z + dz) dx dy dz fuel
      (r.1 + 1, r.2)
    else (0, (x, y, z))

/-- `countConsecutiveStones(board, startX, startY, startZ, dx, dy, dz, player)`
from gameRules.ts: consecutive stones counted from the start cell inclusive. -/
def countConsecutiveStones (b : Board) (sx sy sz dx dy dz : Int) (p : Nat) : Nat :=
  (runScan b p sx sy sz dx dy dz 8).1

section RunLemmas

/-- The cell `i` steps from (x, y, z) along (dx, dy, dz) holds `p` and is in
bounds. -/
def stoneAt (b : Board) (p : Nat) (x y z dx dy dz : Int) (i : Nat) : Prop :=
  isInBounds (x + i * dx) (y + i * dy) (z + i * dz) = true ∧
    b (z + i * dz) (y + i * dy) (x + i * dx) = p

theorem stoneAt_zero {b p x y z dx dy dz} :
    stoneAt b p x y z dx dy dz 0 ↔ (isInBounds x y z = true ∧ b z y x = p) := by
  simp [stoneAt]

theorem stoneAt_shift {b p x y z dx dy dz} (i : Nat) :
    stoneAt b p (x + dx) (y + dy) (z + dz) dx dy dz i ↔
      stoneAt b p x y z dx dy dz (i + 1) := by
  unfold stoneAt
  have hx : x + dx + (i : Int) * dx = x + ((i : Nat) + 1 : Nat) * dx := by
    push_cast; ring
  have hy : y + dy + (i : Int) * dy = y + ((i : Nat) + 1 : Nat) * dy := by
    push_cast; ring
  have hz : z + dz + (i : Int) * dz = z + ((i : Nat) + 1 : Nat) * dz := by
    push_cast; ring
  rw [hx, hy, hz]

theorem runScan_ge (b : Board) (p : Nat) (dx dy dz : Int) :
    ∀ (k fuel : Nat) (x y z : Int), k ≤ fuel →
      (∀ i, i < k → stoneAt b p x y z dx dy dz i) →
      k ≤ (runScan b p x y z dx dy dz fuel).1 := by
  intro k
  induction k with
  | zero => intro fuel x y z _ _; exact Nat.zero_le _
  | succ n ih =>
    intro fuel x y z hk hall
    obtain ⟨f, rfl⟩ : ∃ f, fuel = f + 1 :=
      ⟨fuel - 1, by omega⟩
    have h0 := hall 0 (Nat.succ_pos _)
    rw [stoneAt_zero] at h0
    have hstep : (isInBounds x y z && (b z y x == p)) = true := by
      simp [h0.1, h0.2]
    have hrec : n ≤ (runScan b p (x + dx) (y + dy) (z + dz) dx dy dz f).1 := by
      refine ih f (x + dx) (y + dy) (z + dz) (by omega) ?_
      intro i hi
      exact (stoneAt_shift i).mpr (hall (i + 1) (by omega))
    simp only [runScan, hstep, if_true]
    omega

theorem runScan_le_imp (b : Board) (p : Nat) (dx dy dz : Int) :
    ∀ (fuel k : Nat) (x y z : Int),
      k ≤ (runScan b p x y z dx dy dz fuel).1 →
      ∀ i, i < k → stoneAt b p x y z dx dy dz i := by
  intro fuel
  induction fuel with
  | zero =>
    intro k x y z hk i hi
    simp only [runScan] at hk
    omega
  | succ f ih =>
    intro k x y z hk i hi
    by_cases hstep : (isInBounds x y z && (b z y x == p)) = true
    · simp only [runScan, hstep, if_true] at hk
      rcases i with _ | j
      · rw [stoneAt_zero]
        simpa using hstep
      · refine (stoneAt_shift j).mp ?_
        exact ih (k - 1) (x + dx) (y + dy) (z + dz) (by omega) j (by omega)
    · have hs : (isInBounds x y z && (b z y x == p)) = false := by
        revert hstep; cases (isInBounds x y z && (b z y x == p)) <;> simp
      simp only [runScan, hs, Bool.false_eq_true, if_false] at hk
      omega

end RunLemmas

section CellEnum

theorem mem_allCells {x y z : Int} :
    ((x, y, z) : Cell) ∈ allCells ↔
      (0 ≤ x ∧ x < 8 ∧ 0 ≤ y ∧ y < 8 ∧ 0 ≤ z ∧ z < 8) := by
  constructor
  · intro h
    simp only [allCells, List.mem_flatMap, List.mem_map, List.mem_range] at h
    obtain ⟨zn, hzn, yn, hyn, xn, hxn, heq⟩ := h
    cases heq
    simp at hxn
    obtain ⟨a, ha, rfl⟩ := hxn
    omega
  · rintro ⟨hx0, hx8, hy0, hy8, hz0, hz8⟩
    obtain ⟨xn, rfl⟩ : ∃ n : Nat, x = (n : Int) := ⟨x.toNat, by omega⟩
    obtain ⟨yn, rfl⟩ : ∃ n : Nat, y = (n : Int) := ⟨y.toNat, by omega⟩
    obtain ⟨zn, rfl⟩ : ∃ n : Nat, z = (n : Int) := ⟨z.toNat, by omega⟩
    simp only [allCells, List.mem_flatMap, List.mem_map, List.mem_range]
    refine ⟨zn, by omega, yn, by omega, (xn : Int), ?_, rfl⟩
    simp
    omega

theorem mem_allCells_isInBounds {c : Cell} :
    c ∈ allCells ↔ isInBounds c.1 c.2.1 c.2.2 = true := by
  obtain ⟨x, y, z⟩ := c
  rw [mem_allCells]
  simp only [isInBounds, inRange, BOARD_SIZE, Bool.and_eq_true, decide_eq_true_eq]
  omega

end CellEnum

/-! ## Game rules (src/utils/gameRules.ts, in src/unnamed/part_000) -/

/-- `wouldCreateSixInARow(board, x, y, z, dx, dy, dz, player)`: count the
consecutive `player` stones after (x, y, z) in the positive direction and in
the negative direction; the move is forbidden when
`positiveCount + negativeCount + 1 >= 6`. -/
def wouldCreateSixInARow (b : Board) (x y z dx dy dz : Int) (p : Nat) : Bool :=
  let positiveCount := (runScan b p (x + dx) (y + dy) (z + dz) dx dy dz 8).1
  let negativeCount := (runScan b p (x - dx) (y - dy) (z - dz) (-dx) (-dy) (-dz) 8).1
  decide (6 ≤ positiveCount + negativeCount + 1)

/-- `isForbiddenMove(board, x, y, z, player)`: an occupied target returns true
outright; otherwise the move is forbidden when some of the 26 directions would
yield six or more in a row. -/
def isForbiddenMove (b : Board) (x y z : Int) (p : Nat) : Bool :=
  if b z y x ≠ 0 then true
  else directions.any fun d => wouldCreateSixInARow b x y z d.1 d.2.1 d.2.2 p

/-- `isLegalMove(board, x, y, z, player)`: out-of-bounds coordinates are
rejected first, then the target must be empty and not forbidden. -/
def isLegalMove (b : Board) (x y z : Int) (p : Nat) : Bool :=
  if decide (x < 0) || decide (BOARD_SIZE ≤ x) || decide (y < 0) ||
      decide (BOARD_SIZE ≤ y) || decide (z < 0) || decide (BOARD_SIZE ≤ z) then
    false
  else (b z y x == 0) && !(isForbiddenMove b x y z p)

/-- `getLegalMoves(board, player)`: scan of the whole board in z, y, x order,
keeping the legal cells. -/
def getLegalMoves (b : Board) (p : Nat) : List Cell :=
  allCells.filter fun c => isLegalMove b c.1 c.2.1 c.2.2 p

/-! ## Winner check (checkGameOver in moveGeneration.ts, checkWinner3D in
App.tsx; both scan cells in z, y, x order, and for each occupied cell and each
of the 26 directions count the run starting at that cell, returning the
player as soon as the count reaches WIN_COUNT). -/

/-- Does the scan starting at cell `c` detect a win there: the cell is
occupied and, in some direction, the run beginning at `c` has length at least
`WIN_COUNT` (the source's counter starts at 1 for the cell itself and
early-returns when it reaches 5, which a run of length ≥ 5 always makes it
do). -/
def winsAt (b : Board) (c : Cell) : Bool :=
  (b c.2.2 c.2.1 c.1 != 0) && directions.any fun d =>
    decide (WIN_COUNT ≤
      1 + (runScan b (b c.2.2 c.2.1 c.1) (c.1 + d.1) (c.2.1 + d.2.1)
            (c.2.2 + d.2.2) d.1 d.2.1 d.2.2 8).1)

/-- `checkGameOver(board)` from moveGeneration.ts: the player of the first
cell, in z, y, x scan order, at which a five-run is detected; 0 otherwise. -/
def checkGameOver (b : Board) : Nat :=
  match allCells.find? (winsAt b) with
  | some c => b c.2.2 c.2.1 c.1
  | none => 0

/-- `checkWinner3D(board)` from App.tsx is textually identical to
`checkGameOver`. -/
def checkWinner3D (b : Board) : Nat := checkGameOver b

/-- Specification-side predicate: player `p` owns a line of five consecutive
cells along one of the 26 directions, all in bounds. -/
def hasFiveLine (b : Board) (p : Nat) : Bool :=
  allCells.any fun c => directions.any fun d =>
    (List.range 5).all fun i =>
      isInBounds (c.1 + i * d.1) (c.2.1 + i * d.2.1) (c.2.2 + i * d.2.2) &&
        (b (c.2.2 + i * d.2.2) (c.2.1 + i * d.2.1) (c.1 + i * d.1) == p)

/-- Every cell of the board holds 0, 1 or 2 (the `Player` type of the
source). -/
def validBoard (b : Board) : Bool :=
  allCells.all fun c => decide (b c.2.2 c.2.1 c.1 ≤ 2)

section WinnerLemmas

theorem hasFiveLine_to_winsAt {b : Board} {p : Nat} (hp : p ≠ 0)
    (h : hasFiveLine b p = true) :
    ∃ c ∈ allCells, b c.2.2 c.2.1 c.1 = p ∧ winsAt b c = true := by
  simp only [hasFiveLine, List.any_eq_true] at h
  obtain ⟨c, hc, d, hd, hall⟩ := h
  simp only [List.all_eq_true, List.mem_range, Bool.and_eq_true, beq_iff_eq] at hall
  obtain ⟨x, y, z⟩ := c
  obtain ⟨dx, dy, dz⟩ := d
  have h0 := hall 0 (by omega)
  simp only [Nat.cast_zero, zero_mul, add_zero] at h0
  refine ⟨(x, y, z), hc, h0.2, ?_⟩
  simp only [winsAt, h0.2, Bool.and_eq_true, bne_iff_ne, List.any_eq_true,
    decide_eq_true_eq]
  refine ⟨hp, ⟨dx, dy, dz⟩, hd, ?_⟩
  have hrun : 4 ≤ (runScan b p (x + dx) (y + dy) (z + dz) dx dy dz 8).1 := by
    refine runScan_ge b p dx dy dz 4 8 _ _ _ (by omega) ?_
    intro i hi
    refine (stoneAt_shift i).mpr ?_
    have := hall (i + 1) (by omega)
    exact ⟨this.1, this.2⟩
  simp only [WIN_COUNT]
  omega

theorem winsAt_to_hasFiveLine {b : Board} {c : Cell}
    (hc : c ∈ allCells) (hw : winsAt b c = true) :
    b c.2.2 c.2.1 c.1 ≠ 0 ∧ hasFiveLine b (b c.2.2 c.2.1 c.1) = true := by
  obtain ⟨x, y, z⟩ := c
  simp only [winsAt, Bool.and_eq_true, bne_iff_ne, List.any_eq_true,
    decide_eq_true_eq] at hw
  obtain ⟨hne, ⟨dx, dy, dz⟩, hd, hcount⟩ := hw
  refine ⟨hne, ?_⟩
  simp only [hasFiveLine, List.any_eq_true]
  refine ⟨(x, y, z), hc, (dx, dy, dz), hd, ?_⟩
  simp only [List.all_eq_true, List.mem_range, Bool.and_eq_true, beq_iff_eq]
  intro i hi
  rcases i with _ | j
  · have hin := mem_allCells_isInBounds.mp hc
    simp only [Nat.cast_zero, zero_mul, add_zero]
    exact ⟨hin, trivial⟩
  · have hrun : 4 ≤ (runScan b (b z y x) (x + dx) (y + dy) (z + dz) dx dy dz 8).1 := by
      simp only [WIN_COUNT] at hcount
      omega
    have := runScan_le_imp b (b z y x) dx dy dz 8 4 _ _ _ hrun j (by omega)
    have hsh := (@stoneAt_shift b (b z y x) x y z dx dy dz j).mp this
    exact ⟨hsh.1, hsh.2⟩

end WinnerLemmas

instance stoneAtDecidable (b : Board) (p : Nat) (x y z dx dy dz : Int) (i : Nat) :
    Decidable (stoneAt b p x y z dx dy dz i) := by
  unfold stoneAt; infer_instance

/-- `generateAllMoves(board, player)` from moveGeneration.ts: the same
z, y, x scan as `getLegalMoves`, keeping cells that pass `isLegalMove`. -/
def generateAllMoves (b : Board) (p : Nat) : List Cell :=
  allCells.filter fun c => isLegalMove b c.1 c.2.1 c.2.2 p

/-! ## Concrete boards used as witnesses and counterexamples -/

/-- The empty board. -/
def emptyBoard : Board := fun _ _ _ => 0

/-- Player 1 holds (0..4, 0, 0); all other cells empty. -/
def singleFiveBoard : Board := fun z y x =>
  if z = 0 ∧ y = 0 ∧ 0 ≤ x ∧ x < 5 then 1 else 0

/-- Player 1 holds (0..4, 0, 0) and player 2 holds (0..4, 1, 0). -/
def doubleFiveBoard : Board := fun z y x =>
  if z = 0 ∧ y = 0 ∧ 0 ≤ x ∧ x < 5 then 1
  else if z = 0 ∧ y = 1 ∧ 0 ≤ x ∧ x < 5 then 2
  else 0

/-! ## Claims C1, C2, C3, C10 -/

/-- **C1** (counterexample).  On a board where both players hold a line of
five, the winner check returns player 1 (the first five-line in z, y, x scan
order), not player 2 — refuting, for P = 2, the claim that a five-line for
player P makes the check return P. -/
theorem C1_counterexample :
    hasFiveLine doubleFiveBoard 2 = true ∧
      checkGameOver doubleFiveBoard = 1 ∧ (1 : Nat) ≠ 2 :=
  ⟨by decide, by decide, by decide⟩

/-- **C1** (amended).  For every board whose cells are all 0/1/2 and every
player p ∈ {1, 2}: if p has a five-in-a-row line along one of the 26
directions and the opponent has none, the winner check returns p; if neither
player has a five-line, it returns 0; and App.tsx's `checkWinner3D` agrees
with `checkGameOver`. -/
theorem C1_winner_check (b : Board) (hv : validBoard b = true) (p : Nat)
    (hp : p = 1 ∨ p = 2) :
    (hasFiveLine b p = true → hasFiveLine b (opp p) = false →
      checkGameOver b = p) ∧
    (hasFiveLine b 1 = false → hasFiveLine b 2 = false →
      checkGameOver b = 0) ∧
    checkWinner3D b = checkGameOver b := by
  have hvalid : ∀ c ∈ allCells, b c.2.2 c.2.1 c.1 ≤ 2 := by
    intro c hc
    have := List.all_eq_true.mp hv c hc
    simpa using this
  refine ⟨?_, ?_, rfl⟩
  · intro h5 hno
    have hp0 : p ≠ 0 := by rcases hp with rfl | rfl <;> simp
    obtain ⟨c, hc, hcp, hw⟩ := hasFiveLine_to_winsAt hp0 h5
    have hsome : (allCells.find? (winsAt b)).isSome :=
      List.find?_isSome.mpr ⟨c, hc, hw⟩
    obtain ⟨c₀, hfind⟩ := Option.isSome_iff_exists.mp hsome
    have hpred := List.find?_some hfind
    have hmem := List.mem_of_find?_eq_some hfind
    obtain ⟨hne, hfive0⟩ := winsAt_to_hasFiveLine hmem hpred
    have hle := hvalid c₀ hmem
    have hval : b c₀.2.2 c₀.2.1 c₀.1 = p := by
      rcases hp with rfl | rfl
      · have h2 : b c₀.2.2 c₀.2.1 c₀.1 ≠ 2 := by
          intro h
          rw [h] at hfive0
          rw [show opp 1 = 2 from rfl] at hno
          rw [hno] at hfive0
          exact Bool.false_ne_true hfive0
        omega
      · have h2 : b c₀.2.2 c₀.2.1 c₀.1 ≠ 1 := by
          intro h
          rw [h] at hfive0
          rw [show opp 2 = 1 from rfl] at hno
          rw [hno] at hfive0
          exact Bool.false_ne_true hfive0
        omega
    simp [checkGameOver, hfind, hval]
  · intro h1 h2
    have hnone : allCells.find? (winsAt b) = none := by
      rw [List.find?_eq_none]
      intro c hc hw
      obtain ⟨hne, hfive⟩ := winsAt_to_hasFiveLine hc hw
      have hle := hvalid c hc
      have : b c.2.2 c.2.1 c.1 = 1 ∨ b c.2.2 c.2.1 c.1 = 2 := by omega
      rcases this with h | h <;> rw [h] at hfive
      · rw [h1] at hfive; exact Bool.false_ne_true hfive
      · rw [h2] at hfive; exact Bool.false_ne_true hfive
    simp [checkGameOver, hnone]

theorem runScan_fst_zero {b : Board} {p : Nat} {x y z dx dy dz : Int}
    (h : b z y x ≠ p) (fuel : Nat) :
    (runScan b p x y z dx dy dz fuel).1 = 0 := by
  have hb : (b z y x == p) = false := by simpa using h
  cases fuel with
  | zero => rfl
  | succ k => simp [runScan, hb]

theorem noStone_hasFiveLine_false (b : Board) (p : Nat)
    (h : ∀ z y x : Int, b z y x ≠ p) : hasFiveLine b p = false := by
  unfold hasFiveLine
  rw [List.any_eq_false]
  intro c _
  simp only [Bool.not_eq_true]
  rw [List.any_eq_false]
  intro d _
  simp only [Bool.not_eq_true]
  rw [List.all_eq_false]
  refine ⟨0, by simp, ?_⟩
  simp
  intro _
  exact h _ _ _

theorem singleFiveBoard_no2 : ∀ z y x : Int, singleFiveBoard z y x ≠ 2 := by
  intro z y x
  unfold singleFiveBoard
  split <;> decide

theorem singleFiveBoard_valid : validBoard singleFiveBoard = true := by
  unfold validBoard
  rw [List.all_eq_true]
  intro c _
  unfold singleFiveBoard
  split <;> rfl

set_option maxHeartbeats 4000000 in
/-- Witness for **C1**: a board where only player 1 has a five-line; the
check returns 1. -/
theorem C1_witness : checkGameOver singleFiveBoard = 1 :=
  (C1_winner_check singleFiveBoard singleFiveBoard_valid 1 (Or.inl rfl)).1
    (by decide) (noStone_hasFiveLine_false singleFiveBoard 2 singleFiveBoard_no2)

/-- **C2**: for every board, player and in-bounds empty target,
`isForbiddenMove` returns true iff, in some of the 26 directions, n
consecutive `player` stones extend from the target positively and m
negatively with n + m + 1 ≥ 6; in particular it returns false whenever every
direction's total is at most 5. -/
theorem C2_forbidden_iff (b : Board) (x y z : Int) (p : Nat)
    (hin : isInBounds x y z = true) (hempty : b z y x = 0) :
    isForbiddenMove b x y z p = true ↔
      ∃ d ∈ directions, ∃ n m : Nat,
        6 ≤ n + m + 1 ∧
        (∀ i, i < n →
          stoneAt b p (x + d.1) (y + d.2.1) (z + d.2.2) d.1 d.2.1 d.2.2 i) ∧
        (∀ i, i < m →
          stoneAt b p (x - d.1) (y - d.2.1) (z - d.2.2) (-d.1) (-d.2.1) (-d.2.2) i) := by
  have hocc : ¬ (b z y x ≠ 0) := by simp [hempty]
  rw [isForbiddenMove, if_neg hocc, List.any_eq_true]
  constructor
  · rintro ⟨⟨dx, dy, dz⟩, hd, hw⟩
    simp only [wouldCreateSixInARow, decide_eq_true_eq] at hw
    refine ⟨(dx, dy, dz), hd,
      (runScan b p (x + dx) (y + dy) (z + dz) dx dy dz 8).1,
      (runScan b p (x - dx) (y - dy) (z - dz) (-dx) (-dy) (-dz) 8).1,
      hw, ?_, ?_⟩
    · exact runScan_le_imp b p dx dy dz 8 _ _ _ _ le_rfl
    · exact runScan_le_imp b p (-dx) (-dy) (-dz) 8 _ _ _ _ le_rfl
  · rintro ⟨⟨dx, dy, dz⟩, hd, n, m, htot, hpos, hneg⟩
    refine ⟨(dx, dy, dz), hd, ?_⟩
    simp only [wouldCreateSixInARow, decide_eq_true_eq]
    rcases le_or_lt n 5 with hn | hn
    · rcases le_or_lt m 5 with hm | hm
      · have h1 := runScan_ge b p dx dy dz n 8 (x + dx) (y + dy) (z + dz)
          (by omega) hpos
        have h2 := runScan_ge b p (-dx) (-dy) (-dz) m 8 (x - dx) (y - dy) (z - dz)
          (by omega) hneg
        omega
      · have h2 := runScan_ge b p (-dx) (-dy) (-dz) 5 8 (x - dx) (y - dy) (z - dz)
          (by omega) (fun i hi => hneg i (by omega))
        omega
    · have h1 := runScan_ge b p dx dy dz 5 8 (x + dx) (y + dy) (z + dz)
        (by omega) (fun i hi => hpos i (by omega))
      omega

/-- Witness for **C2**: five stones at (0..4, 0, 0); placing at (5, 0, 0)
would create six in a row and is forbidden. -/
theorem C2_witness : isForbiddenMove singleFiveBoard 5 0 0 1 = true := by
  refine (C2_forbidden_iff singleFiveBoard 5 0 0 1 (by decide) (by decide)).mpr ?_
  refine ⟨(-1, 0, 0), by decide, 5, 0, by omega, ?_, ?_⟩
  · decide
  · intro i hi; omega

/-- **C10**: for every board, player and position whose cell is occupied,
`isForbiddenMove` returns true regardless of any six-in-a-row consideration. -/
theorem C10_occupied_forbidden (b : Board) (x y z : Int) (p : Nat)
    (hin : isInBounds x y z = true) (hocc : b z y x ≠ 0) :
    isForbiddenMove b x y z p = true := by
  rw [isForbiddenMove, if_pos hocc]

/-- Witness for **C10**: cell (0, 0, 0) of the five-stone board is occupied
by player 1, so it is forbidden even for player 2. -/
theorem C10_witness : isForbiddenMove singleFiveBoard 0 0 0 2 = true :=
  C10_occupied_forbidden singleFiveBoard 0 0 0 2 (by decide) (by decide)

theorem isLegalMove_char (b : Board) (p : Nat) (x y z : Int) :
    isLegalMove b x y z p =
      (isInBounds x y z && (b z y x == 0) && !(isForbiddenMove b x y z p)) := by
  have hnot : ∀ c : Int, decide (c < 0) = !(decide (0 ≤ c)) := by
    intro c
    rcases lt_or_le c 0 with h | h
    · simp [h, not_le.mpr h]
    · simp [h, not_lt.mpr h]
  have hge : ∀ c : Int, decide (BOARD_SIZE ≤ c) = !(decide (c < BOARD_SIZE)) := by
    intro c
    rcases lt_or_le c BOARD_SIZE with h | h
    · simp [h, not_le.mpr h]
    · simp [h, not_lt.mpr h]
  have hcond : (decide (x < 0) || decide (BOARD_SIZE ≤ x) || decide (y < 0) ||
      decide (BOARD_SIZE ≤ y) || decide (z < 0) || decide (BOARD_SIZE ≤ z)) =
      !(isInBounds x y z) := by
    rw [hnot x, hge x, hnot y, hge y, hnot z, hge z]
    simp only [isInBounds, inRange]
    cases decide (0 ≤ x) <;> cases decide (x < BOARD_SIZE) <;>
      cases decide (0 ≤ y) <;> cases decide (y < BOARD_SIZE) <;>
      cases decide (0 ≤ z) <;> cases decide (z < BOARD_SIZE) <;> rfl
  unfold isLegalMove
  rw [hcond]
  cases hin : isInBounds x y z
  · simp
  · simp

theorem isLegalMove_inBounds {b : Board} {p : Nat} {x y z : Int}
    (h : isLegalMove b x y z p = true) : isInBounds x y z = true := by
  rw [isLegalMove_char] at h
  simp only [Bool.and_eq_true] at h
  exact h.1.1

/-- **C3**: `isLegalMove` is the conjunction of in-bounds, emptiness and
not-forbidden, and every move produced by `getLegalMoves` or
`generateAllMoves` targets an in-bounds, empty, not-forbidden cell. -/
theorem C3_legal_moves (b : Board) (p : Nat) :
    (∀ x y z : Int, isLegalMove b x y z p =
      (isInBounds x y z && (b z y x == 0) && !(isForbiddenMove b x y z p))) ∧
    (∀ m ∈ getLegalMoves b p, isInBounds m.1 m.2.1 m.2.2 = true ∧
      b m.2.2 m.2.1 m.1 = 0 ∧ isForbiddenMove b m.1 m.2.1 m.2.2 p = false) ∧
    (∀ m ∈ generateAllMoves b p, isInBounds m.1 m.2.1 m.2.2 = true ∧
      b m.2.2 m.2.1 m.1 = 0 ∧ isForbiddenMove b m.1 m.2.1 m.2.2 p = false) := by
  have hmemb : ∀ m ∈ allCells, isLegalMove b m.1 m.2.1 m.2.2 p = true →
      isInBounds m.1 m.2.1 m.2.2 = true ∧
        b m.2.2 m.2.1 m.1 = 0 ∧ isForbiddenMove b m.1 m.2.1 m.2.2 p = false := by
    intro m hm hleg
    have hin := mem_allCells_isInBounds.mp hm
    rw [isLegalMove_char b p m.1 m.2.1 m.2.2] at hleg
    simp only [hin, Bool.true_and, Bool.and_eq_true, beq_iff_eq,
      Bool.not_eq_true'] at hleg
    exact ⟨hin, hleg.1, hleg.2⟩
  refine ⟨isLegalMove_char b p, ?_, ?_⟩
  · intro m hm
    obtain ⟨hmem, hleg⟩ := List.mem_filter.mp hm
    exact hmemb m hmem hleg
  · intro m hm
    obtain ⟨hmem, hleg⟩ := List.mem_filter.mp hm
    exact hmemb m hmem hleg

/-- Witness for **C3**: on the empty board, (0, 0, 0) is a legal move for
player 1 and indeed in-bounds, empty and not forbidden. -/
theorem C3_witness :
    isInBounds 0 0 0 = true ∧ emptyBoard 0 0 0 = 0 ∧
      isForbiddenMove emptyBoard 0 0 0 1 = false :=
  (C3_legal_moves emptyBoard 1).2.1 (0, 0, 0) (by decide)

/-! ## Heuristic evaluator

Two copies of the heuristic module exist in the repository.  The
`src/src/ai/heuristic.ts` file is embedded in namespace `Heuristic`; the
variant in `src/unnamed/part_003` (same structure, different pattern-score
table, extra blocking term and term weights in `evaluatePosition`) is
embedded in namespace `HeuristicV2`.  The direction classification and
weights are identical in both files and are shared here.  Scores are modeled
as rationals: every arithmetic operation in the embedded heuristic code is
addition/multiplication by the rational constants 0.8, 1.2, 0.9, 1.5 and the
integer tables. -/

/-- `[dx, dy, dz].filter(d => d !== 0).length` from classifyDirection. -/
def nonZeroCount (dx dy dz : Int) : Nat :=
  (([dx, dy, dz]).filter fun c => c != 0).length

/-- `DIRECTION_WEIGHTS[classifyDirection(dx, dy, dz)]`: main axis (one
nonzero component) 1.0, face diagonal (two) 0.8, space diagonal (three)
1.2. -/
def directionWeight (dx dy dz : Int) : ℚ :=
  if nonZeroCount dx dy dz = 1 then 1
  else if nonZeroCount dx dy dz = 2 then 0.8
  else 1.2

namespace Heuristic

/-- PATTERN_SCORES of src/src/ai/heuristic.ts. -/
def WIN : ℚ := 1000000
def FOUR_OPEN : ℚ := 10000
def FOUR_BLOCKED : ℚ := 1000
def THREE_OPEN : ℚ := 500
def THREE_BLOCKED : ℚ := 50
def TWO_OPEN : ℚ := 50
def TWO_BLOCKED : ℚ := 5
def ONE : ℚ := 1

/-- `analyzePattern(board, startX, startY, startZ, dx, dy, dz, player)`:
count the run through the start cell in both directions, count the open ends
(in-bounds empty cell just past each end of the run), then map
(consecutiveCount, openEnds) through PATTERN_SCORES. -/
def analyzePattern (b : Board) (sx sy sz dx dy dz : Int) (p : Nat) : ℚ :=
  let fwd := runScan b p sx sy sz dx dy dz 8
  let bwd := runScan b p (sx - dx) (sy - dy) (sz - dz) (-dx) (-dy) (-dz) 8
  let openEnds : Nat :=
    (if isInBounds fwd.2.1 fwd.2.2.1 fwd.2.2.2 &&
        (b fwd.2.2.2 fwd.2.2.1 fwd.2.1 == 0) then 1 else 0) +
    (if isInBounds bwd.2.1 bwd.2.2.1 bwd.2.2.2 &&
        (b bwd.2.2.2 bwd.2.2.1 bwd.2.1 == 0) then 1 else 0)
  let consecutiveCount := fwd.1 + bwd.1
  if WIN_COUNT ≤ consecutiveCount then WIN
  else if consecutiveCount = 4 then
    (if 1 ≤ openEnds then FOUR_OPEN else FOUR_BLOCKED)
  else if consecutiveCount = 3 then
    (if 1 ≤ openEnds then THREE_OPEN else THREE_BLOCKED)
  else if consecutiveCount = 2 then
    (if 1 ≤ openEnds then TWO_OPEN else TWO_BLOCKED)
  else if consecutiveCount = 1 then ONE
  else 0

/-- The inner direction loop of `evaluateThreats` (heuristic.ts lines
150-184): with the hypothetical opponent stone already placed on `b1`, for
each direction compute the full run through it (both directions, the stone
counted once); `>= 5` subtracts `WIN * weight * 0.9` and breaks out of the
loop, `=== 4` subtracts `FOUR_OPEN * weight * 0.8` and continues. -/
def threatDirLoop (b1 : Board) (x y z : Int) (o : Nat) :
    List Dir → ℚ → ℚ
  | [], acc => acc
  | d :: rest, acc =>
    let cnt : Int :=
      (countConsecutiveStones b1 x y z d.1 d.2.1 d.2.2 o : Int) +
      (countConsecutiveStones b1 (x - d.1) (y - d.2.1) (z - d.2.2)
        (-d.1) (-d.2.1) (-d.2.2) o : Int) - 1
    if 5 ≤ cnt then acc - WIN * directionWeight d.1 d.2.1 d.2.2 * 0.9
    else if cnt = 4 then
      threatDirLoop b1 x y z o rest
        (acc - FOUR_OPEN * directionWeight d.1 d.2.1 d.2.2 * 0.8)
    else threatDirLoop b1 x y z o rest acc

/-- `evaluateThreats(board, player, opponent)` from heuristic.ts, in
state-passing form: the source temporarily writes the opponent stone into the
caller's board (`board[z][y][x] = opponent`), analyzes it, and writes 0 back.
The Board component of the result is the board as left behind by the call. -/
def evaluateThreatsST (b : Board) (p o : Nat) : ℚ × Board :=
  allCells.foldl (fun acc c =>
    if acc.2 c.2.2 c.2.1 c.1 = 0 then
      let b1 := setCell acc.2 c.1 c.2.1 c.2.2 o
      let score := threatDirLoop b1 c.1 c.2.1 c.2.2 o directions acc.1
      let b2 := setCell b1 c.1 c.2.1 c.2.2 0
      (score, b2)
    else acc) ((0 : ℚ), b)

end Heuristic

namespace HeuristicV2

/-- PATTERN_SCORES of the src/unnamed/part_003 heuristic variant. -/
def WIN : ℚ := 1000000
def FOUR_OPEN : ℚ := 50000
def FOUR_BLOCKED : ℚ := 5000
def THREE_OPEN : ℚ := 2000
def THREE_BLOCKED : ℚ := 200
def TWO_OPEN : ℚ := 100
def TWO_BLOCKED : ℚ := 10
def ONE : ℚ := 1

/-- `analyzePattern` of the part_003 variant: identical control flow to
`Heuristic.analyzePattern`, reading this file's PATTERN_SCORES. -/
def analyzePattern (b : Board) (sx sy sz dx dy dz : Int) (p : Nat) : ℚ :=
  let fwd := runScan b p sx sy sz dx dy dz 8
  let bwd := runScan b p (sx - dx) (sy - dy) (sz - dz) (-dx) (-dy) (-dz) 8
  let openEnds : Nat :=
    (if isInBounds fwd.2.1 fwd.2.2.1 fwd.2.2.2 &&
        (b fwd.2.2.2 fwd.2.2.1 fwd.2.1 == 0) then 1 else 0) +
    (if isInBounds bwd.2.1 bwd.2.2.1 bwd.2.2.2 &&
        (b bwd.2.2.2 bwd.2.2.1 bwd.2.1 == 0) then 1 else 0)
  let consecutiveCount := fwd.1 + bwd.1
  if WIN_COUNT ≤ consecutiveCount then WIN
  else if consecutiveCount = 4 then
    (if 1 ≤ openEnds then FOUR_OPEN else FOUR_BLOCKED)
  else if consecutiveCount = 3 then
    (if 1 ≤ openEnds then THREE_OPEN else THREE_BLOCKED)
  else if consecutiveCount = 2 then
    (if 1 ≤ openEnds then TWO_OPEN else TWO_BLOCKED)
  else if consecutiveCount = 1 then ONE
  else 0

end HeuristicV2

/-- `makeMove(board, x, y, z, player)` from moveGeneration.ts: the source
deep-copies the board and sets `newBoard[z][y][x] = player`; the functional
embedding returns the updated board, the input board value being unchanged
by construction. -/
def makeMove (b : Board) (x y z : Int) (p : Nat) : Board :=
  setCell b x y z p

theorem runScan_exact (b : Board) (p : Nat) (dx dy dz : Int) :
    ∀ (k fuel : Nat) (x y z : Int), k ≤ fuel →
      (∀ i, i < k → stoneAt b p x y z dx dy dz i) →
      ¬ stoneAt b p x y z dx dy dz k →
      runScan b p x y z dx dy dz fuel =
        (k, (x + k * dx, y + k * dy, z + k * dz)) := by
  intro k
  induction k with
  | zero =>
    intro fuel x y z _ _ hstop
    have hc : (isInBounds x y z && (b z y x == p)) = false := by
      rw [stoneAt_zero] at hstop
      cases hib : isInBounds x y z
      · simp
      · simp only [Bool.true_and]
        cases hbp : (b z y x == p)
        · rfl
        · exact absurd ⟨hib, by simpa using hbp⟩ hstop
    cases fuel <;> simp [runScan, hc]
  | succ n ih =>
    intro fuel x y z hk hall hstop
    obtain ⟨f, rfl⟩ : ∃ f, fuel = f + 1 := ⟨fuel - 1, by omega⟩
    have h0 := hall 0 (by omega)
    rw [stoneAt_zero] at h0
    have hc : (isInBounds x y z && (b z y x == p)) = true := by
      simp [h0.1, h0.2]
    have hrec := ih f (x + dx) (y + dy) (z + dz) (by omega)
      (fun i hi => (stoneAt_shift i).mpr (hall (i + 1) (by omega)))
      (fun hs => hstop ((stoneAt_shift n).mp hs))
    simp only [runScan, hc, if_true, hrec]
    have e1 : x + dx + (n : Int) * dx = x + (((n : Nat) + 1 : Nat) : Int) * dx := by
      push_cast; ring
    have e2 : y + dy + (n : Int) * dy = y + (((n : Nat) + 1 : Nat) : Int) * dy := by
      push_cast; ring
    have e3 : z + dz + (n : Int) * dz = z + (((n : Nat) + 1 : Nat) : Int) * dz := by
      push_cast; ring
    rw [e1, e2, e3]

/-- Player 1 holds (0..3, 0, 0): an open four on the x main axis (cell
(4, 0, 0) is empty and in bounds; (-1, 0, 0) is off the board). -/
def fourOpenBoard : Board := fun z y x =>
  if z = 0 ∧ y = 0 ∧ 0 ≤ x ∧ x < 4 then 1 else 0

/-- **C4** (counterexample).  On the open-four board, the heuristic.ts
variant of `analyzePattern` maps the maximal run to 10,000, not the claimed
50,000 tier — the claimed table is not the one in src/src/ai/heuristic.ts. -/
theorem C4_counterexample :
    Heuristic.analyzePattern fourOpenBoard 0 0 0 1 0 0 1 = 10000 ∧
      (10000 : ℚ) ≠ 50000 :=
  ⟨by decide, by decide⟩

/-- **C4** (amended).  A maximal run of exactly four `p` stones with at least
one open end is mapped to the 50,000 four-open score by the part_003 variant
of `analyzePattern` (weight 1.0 on a main axis, strictly above the three-open
tier 2,000 and the blocked-four tier 5,000 under every direction weight);
the src/src/ai/heuristic.ts variant maps the same run to 10,000. -/
theorem C4_pattern_table (b : Board) (x y z dx dy dz : Int) (p : Nat)
    (hstones : ∀ i, i < 4 → stoneAt b p x y z dx dy dz i)
    (hafter : ¬ stoneAt b p x y z dx dy dz 4)
    (hbefore : ¬ stoneAt b p (x - dx) (y - dy) (z - dz) (-dx) (-dy) (-dz) 0)
    (hopen :
      (isInBounds (x + 4 * dx) (y + 4 * dy) (z + 4 * dz) = true ∧
        b (z + 4 * dz) (y + 4 * dy) (x + 4 * dx) = 0) ∨
      (isInBounds (x - dx) (y - dy) (z - dz) = true ∧
        b (z - dz) (y - dy) (x - dx) = 0)) :
    HeuristicV2.analyzePattern b x y z dx dy dz p = 50000 ∧
    Heuristic.analyzePattern b x y z dx dy dz p = 10000 ∧
    (nonZeroCount dx dy dz = 1 →
      HeuristicV2.analyzePattern b x y z dx dy dz p * directionWeight dx dy dz
        = 50000) ∧
    (∀ e ∈ directions,
      HeuristicV2.THREE_OPEN * directionWeight e.1 e.2.1 e.2.2 < 50000 ∧
      HeuristicV2.FOUR_BLOCKED * directionWeight e.1 e.2.1 e.2.2 < 50000) := by
  have hfwd : runScan b p x y z dx dy dz 8 =
      (4, (x + 4 * dx, y + 4 * dy, z + 4 * dz)) := by
    have := runScan_exact b p dx dy dz 4 8 x y z (by omega) hstones hafter
    simpa using this
  have hbwd : runScan b p (x - dx) (y - dy) (z - dz) (-dx) (-dy) (-dz) 8 =
      (0, (x - dx, y - dy, z - dz)) := by
    have := runScan_exact b p (-dx) (-dy) (-dz) 0 8 (x - dx) (y - dy) (z - dz)
      (by omega) (by omega) hbefore
    simpa using this
  have hv2 : HeuristicV2.analyzePattern b x y z dx dy dz p = 50000 := by
    rcases hopen with ⟨h1, h2⟩ | ⟨h1, h2⟩ <;>
    · simp only [HeuristicV2.analyzePattern, hfwd, hbwd]
      norm_num [h1, h2, WIN_COUNT, HeuristicV2.FOUR_OPEN, Nat.le_add_right,
        Nat.le_add_left]
  have hv1 : Heuristic.analyzePattern b x y z dx dy dz p = 10000 := by
    rcases hopen with ⟨h1, h2⟩ | ⟨h1, h2⟩ <;>
    · simp only [Heuristic.analyzePattern, hfwd, hbwd]
      norm_num [h1, h2, WIN_COUNT, Heuristic.FOUR_OPEN, Nat.le_add_right,
        Nat.le_add_left]
  have hwvals : ∀ e : Dir, directionWeight e.1 e.2.1 e.2.2 = 1 ∨
      directionWeight e.1 e.2.1 e.2.2 = 0.8 ∨
      directionWeight e.1 e.2.1 e.2.2 = 1.2 := by
    intro e
    unfold directionWeight
    split
    · exact Or.inl rfl
    · split
      · exact Or.inr (Or.inl rfl)
      · exact Or.inr (Or.inr rfl)
  refine ⟨hv2, hv1, ?_, ?_⟩
  · intro h1
    rw [hv2, directionWeight, if_pos h1]
    norm_num
  · intro e _
    rcases hwvals e with h | h | h <;> rw [h] <;>
      norm_num [HeuristicV2.THREE_OPEN, HeuristicV2.FOUR_BLOCKED]

/-- Witness for **C4**: the open four of `fourOpenBoard` instantiates the
amended table statement. -/
theorem C4_witness :
    HeuristicV2.analyzePattern fourOpenBoard 0 0 0 1 0 0 1 = 50000 ∧
      HeuristicV2.analyzePattern fourOpenBoard 0 0 0 1 0 0 1 *
        directionWeight 1 0 0 = 50000 := by
  have h := C4_pattern_table fourOpenBoard 0 0 0 1 0 0 1
    (by decide) (by decide) (by decide)
    (Or.inl ⟨by decide, by decide⟩)
  exact ⟨h.1, h.2.2.1 (by decide)⟩

/-- **C9**: `evaluateThreats` leaves the caller's board exactly as it was
(every hypothetical stone written during threat evaluation is reverted), and
`makeMove` produces a board that differs from its input only at the target
cell — the input board value itself is unchanged by construction in the
functional embedding. -/
theorem C9_board_frame (b : Board) (p o : Nat) :
    (Heuristic.evaluateThreatsST b p o).2 = b ∧
    (∀ x y z : Int, ∀ q : Nat, makeMove b x y z q z y x = q) ∧
    (∀ x y z x' y' z' : Int, ∀ q : Nat, ¬(z' = z ∧ y' = y ∧ x' = x) →
      makeMove b x y z q z' y' x' = b z' y' x') := by
  refine ⟨?_, ?_, ?_⟩
  · have key : ∀ (l : List Cell) (s : ℚ × Board), s.2 = b →
        (l.foldl (fun acc c =>
          if acc.2 c.2.2 c.2.1 c.1 = 0 then
            let b1 := setCell acc.2 c.1 c.2.1 c.2.2 o
            let score := Heuristic.threatDirLoop b1 c.1 c.2.1 c.2.2 o directions acc.1
            let b2 := setCell b1 c.1 c.2.1 c.2.2 0
            (score, b2)
          else acc) s).2 = b := by
      intro l
      induction l with
      | nil => intro s hs; exact hs
      | cons c rest ih =>
        intro s hs
        rw [List.foldl_cons]
        apply ih
        by_cases hc : s.2 c.2.2 c.2.1 c.1 = 0
        · simp only [hc, if_pos]
          funext z' y' x'
          simp only [setCell]
          by_cases h : z' = c.2.2 ∧ y' = c.2.1 ∧ x' = c.1
          · rw [if_pos h, ← hs]
            obtain ⟨h1, h2, h3⟩ := h
            rw [h1, h2, h3, hc]
          · rw [if_neg h, if_neg h, hs]
        · simp only [hc, if_neg, if_false]
          exact hs
    exact key allCells ((0 : ℚ), b) rfl
  · intro x y z q
    simp [makeMove, setCell]
  · intro x y z x' y' z' q h
    simp [makeMove, setCell, h]

/-- Witness for **C9**: the threat pass over the empty board returns the
empty board, and a stone placed at the origin changes only the origin. -/
theorem C9_witness :
    (Heuristic.evaluateThreatsST emptyBoard 1 2).2 = emptyBoard ∧
      makeMove emptyBoard 0 0 0 1 0 0 1 = emptyBoard 0 0 1 :=
  ⟨(C9_board_frame emptyBoard 1 2).1,
    (C9_board_frame emptyBoard 1 2).2.2 0 0 0 0 0 1 1 (by decide)⟩

/-! ## Minimax search with alpha-beta pruning (minimax.ts, the middle section
of src/src/ai/moveGeneration.ts) -/

/-- JavaScript numbers as used by the search: integer scores extended with
the -Infinity / Infinity sentinels that initialize alpha, beta, maxScore and
minScore. -/
abbrev Score := WithBot (WithTop ℤ)

/-- A finite score. -/
def sc (n : ℤ) : Score := ((n : WithTop ℤ) : Score)

/-- The KillerMoveTable of moveGeneration.ts: a per-depth list of moves,
modeled as a total function (Map.get with default []). -/
def KillerTable := Nat → List Cell

def emptyKillerTable : KillerTable := fun _ => []

/-- `storeKillerMove(depth, move)`: skip when already present, otherwise
unshift to the front and keep only the top two entries. -/
def storeKillerMove (kt : KillerTable) (d : Nat) (m : Cell) : KillerTable :=
  fun e => if e = d then
    (if m ∈ kt d then kt d else (m :: kt d).take 2)
  else kt e

/-- `applyKillerMoveOrdering(moves, killerMoves)`: moves found in the killer
set first, the rest after, both in original order. -/
def applyKillerMoveOrdering (moves killerMoves : List Cell) : List Cell :=
  (moves.filter fun m => decide (m ∈ killerMoves)) ++
    (moves.filter fun m => !(decide (m ∈ killerMoves)))

/-- The candidate loop of the maximizing branch of `minimax`: for each move,
recurse (`child` returns the child's score and the threaded killer table),
keep the strictly best score and its move, raise alpha, and on
`beta <= alpha` store the move as a killer at this ply and stop. -/
def maxLoop (child : Cell → Score → Score → KillerTable → Score × KillerTable)
    (ply : Nat) :
    List Cell → Option Cell → Score → Score → Score → KillerTable →
      Option Cell × Score × KillerTable
  | [], best, maxS, _, _, kt => (best, maxS, kt)
  | m :: rest, best, maxS, α, β, kt =>
    let r := child m α β kt
    let best1 := if maxS < r.1 then some m else best
    let max1 := if maxS < r.1 then r.1 else maxS
    let α1 := max α r.1
    if β ≤ α1 then (best1, max1, storeKillerMove r.2 ply m)
    else maxLoop child ply rest best1 max1 α1 β r.2

/-- The candidate loop of the minimizing branch of `minimax`. -/
def minLoop (child : Cell → Score → Score → KillerTable → Score × KillerTable)
    (ply : Nat) :
    List Cell → Option Cell → Score → Score → Score → KillerTable →
      Option Cell × Score × KillerTable
  | [], best, minS, _, _, kt => (best, minS, kt)
  | m :: rest, best, minS, α, β, kt =>
    let r := child m α β kt
    let best1 := if r.1 < minS then some m else best
    let min1 := if r.1 < minS then r.1 else minS
    let β1 := min β r.1
    if β1 ≤ α then (best1, min1, storeKillerMove r.2 ply m)
    else minLoop child ply rest best1 min1 α β1 r.2

/-- `MinimaxAI.minimax(board, depth, alpha, beta, maximizingPlayer, aiPlayer,
currentDepth)`, specialized to an infinite time limit: the
`Date.now() - startTime > maxTime` check never fires (the premise of claims
C5 and C6), and the `nodesEvaluated` counter, which has no effect on the
returned move and score, is omitted.  The candidate generator
(`generateMovesForDepth`, as a function of board, current player, remaining
depth and ply) and the leaf evaluator (`evaluatePosition`) are the search's
collaborator modules, passed as the parameters `gen` and `evalFn`. -/
def minimax (gen : Board → Nat → Nat → Nat → List Cell)
    (evalFn : Board → Nat → ℤ) :
    Nat → Board → Score → Score → Bool → Nat → Nat → KillerTable →
      Option Cell × Score × KillerTable
  | depth, b, α, β, maximizing, ai, ply, kt =>
    if checkGameOver b ≠ 0 then
      if checkGameOver b = ai then (none, sc (1000000 - ply), kt)
      else (none, sc (-1000000 + ply), kt)
    else
      match depth with
      | 0 => (none, sc (evalFn b ai), kt)
      | d + 1 =>
        let currentPlayer := if maximizing then ai else opp ai
        let moves :=
          applyKillerMoveOrdering (gen b currentPlayer (d + 1) ply) (kt ply)
        if maximizing then
          maxLoop (fun m α' β' kt' =>
            let r := minimax gen evalFn d
              (makeMove b m.1 m.2.1 m.2.2 currentPlayer) α' β' false ai
              (ply + 1) kt'
            (r.2.1, r.2.2)) ply moves none ⊥ α β kt
        else
          minLoop (fun m α' β' kt' =>
            let r := minimax gen evalFn d
              (makeMove b m.1 m.2.1 m.2.2 currentPlayer) α' β' true ai
              (ply + 1) kt'
            (r.2.1, r.2.2)) ply moves none ⊤ α β kt

/-- The comparison object of the alpha-beta equivalence claim, built from the
spec's words: an unpruned full minimax over the same ply depth and the same
candidate sets — identical terminal cases and candidate generation, no
alpha/beta window, no cutoff, no killer-move reordering; candidates are
scanned in generator order, keeping the first strict improvement, exactly
like the pruned loops do. -/
def minimaxFull (gen : Board → Nat → Nat → Nat → List Cell)
    (evalFn : Board → Nat → ℤ) :
    Nat → Board → Bool → Nat → Nat → Option Cell × Score
  | depth, b, maximizing, ai, ply =>
    if checkGameOver b ≠ 0 then
      if checkGameOver b = ai then (none, sc (1000000 - ply))
      else (none, sc (-1000000 + ply))
    else
      match depth with
      | 0 => (none, sc (evalFn b ai))
      | d + 1 =>
        let currentPlayer := if maximizing then ai else opp ai
        let moves := gen b currentPlayer (d + 1) ply
        if maximizing then
          moves.foldl (fun acc m =>
            let s := (minimaxFull gen evalFn d
              (makeMove b m.1 m.2.1 m.2.2 currentPlayer) false ai (ply + 1)).2
            if acc.2 < s then (some m, s) else acc) (none, (⊥ : Score))
        else
          moves.foldl (fun acc m =>
            let s := (minimaxFull gen evalFn d
              (makeMove b m.1 m.2.1 m.2.2 currentPlayer) true ai (ply + 1)).2
            if s < acc.2 then (some m, s) else acc) (none, (⊤ : Score))

theorem sc_lt_sc {a b : ℤ} : sc a < sc b ↔ a < b := by
  simp [sc]

/-- **C5**: whenever the winner check on the board is non-none, `minimax`
returns score 1,000,000 - ply when the winner is the AI player and
-(1,000,000 - ply) when it is the opponent, with no move and the killer table
untouched (no recursion happens); consequently the same won position scores
strictly higher when reached at ply 1 than at ply 3. -/
theorem C5_terminal_scores (gen : Board → Nat → Nat → Nat → List Cell)
    (evalFn : Board → Nat → ℤ) (depth : Nat) (b : Board) (α β : Score)
    (maximizing : Bool) (ai ply : Nat) (kt : KillerTable) (w : Nat)
    (hw : checkGameOver b = w) (hw0 : w ≠ 0) :
    (w = ai → minimax gen evalFn depth b α β maximizing ai ply kt =
      (none, sc (1000000 - ply), kt)) ∧
    (w ≠ ai → minimax gen evalFn depth b α β maximizing ai ply kt =
      (none, sc (-1000000 + ply), kt)) ∧
    (w = ai →
      (minimax gen evalFn depth b α β maximizing ai 1 kt).2.1 >
        (minimax gen evalFn depth b α β maximizing ai 3 kt).2.1) := by
  have h1 : checkGameOver b ≠ 0 := hw ▸ hw0
  refine ⟨?_, ?_, ?_⟩
  · intro heq
    have hai : ai ≠ 0 := heq ▸ hw0
    rw [minimax.eq_def]
    simp [hw, heq, hai]
  · intro hne
    rw [minimax.eq_def]
    simp [hw, hw0, hne]
  · intro heq
    have hai : ai ≠ 0 := heq ▸ hw0
    rw [minimax.eq_def]
    rw [minimax.eq_def]
    simp [hw, heq, hai, gt_iff_lt, sc_lt_sc]

/-- Witness for **C5**: on the board where player 1 has five in a row,
`minimax` for AI player 1 at ply 0 returns the full win score with no move. -/
theorem C5_witness :
    minimax (fun _ _ _ _ => []) (fun _ _ => 0) 3 singleFiveBoard ⊥ ⊤ true 1 0
      emptyKillerTable = (none, sc 1000000, emptyKillerTable) := by
  have h := (C5_terminal_scores (fun _ _ _ _ => []) (fun _ _ => 0) 3
    singleFiveBoard ⊥ ⊤ true 1 0 emptyKillerTable 1 (by decide) (by decide)).1 rfl
  simpa using h

/-! ## Alpha-beta soundness: the pruned search agrees with the unpruned
reference at the root (claim C6).  The development follows the classic
fail-soft argument: every pruned node value approximates the exact value
within its window, and at the root, where the window is (-∞, ∞), the
approximation forces both the score and the chosen move to coincide with the
reference's. -/

section AlphaBeta

/-- Sound approximation of the exact value `t` by the pruned value `v` within
the window (α, β): inside the window the value is exact, a fail-low value
bounds `t` from above, a fail-high value bounds it from below. -/
def boundsOK (v t α β : Score) : Prop :=
  (v ≤ α → t ≤ v) ∧ (β ≤ v → v ≤ t) ∧ (α < v → v < β → v = t)

/-- Supremum of child values over a candidate list. -/
def listSup (tv : Cell → Score) : List Cell → Score
  | [] => ⊥
  | m :: l => max (tv m) (listSup tv l)

/-- Infimum of child values over a candidate list. -/
def listInf (tv : Cell → Score) : List Cell → Score
  | [] => ⊤
  | m :: l => min (tv m) (listInf tv l)

theorem listSup_cons (tv : Cell → Score) (m : Cell) (l : List Cell) :
    listSup tv (m :: l) = max (tv m) (listSup tv l) := rfl

theorem listInf_cons (tv : Cell → Score) (m : Cell) (l : List Cell) :
    listInf tv (m :: l) = min (tv m) (listInf tv l) := rfl

theorem foldl_max_init (tv : Cell → Score) :
    ∀ (l : List Cell) (a : Score),
      l.foldl (fun s m => max s (tv m)) a = max a (listSup tv l) := by
  intro l
  induction l with
  | nil => intro a; simp [listSup, max_eq_left bot_le]
  | cons m rest ih =>
    intro a
    rw [List.foldl_cons, ih (max a (tv m)), listSup_cons, ← max_assoc]

theorem listSup_le_iff {tv : Cell → Score} {l : List Cell} {a : Score} :
    listSup tv l ≤ a ↔ ∀ m ∈ l, tv m ≤ a := by
  induction l with
  | nil => simp [listSup]
  | cons m rest ih =>
    rw [listSup_cons, max_le_iff, ih]
    simp

theorem le_listSup {tv : Cell → Score} {l : List Cell} {m : Cell}
    (hm : m ∈ l) : tv m ≤ listSup tv l := by
  induction l with
  | nil => cases hm
  | cons x rest ih =>
    rw [listSup_cons]
    rcases List.mem_cons.mp hm with rfl | h
    · exact le_max_left _ _
    · exact le_trans (ih h) (le_max_right _ _)

theorem listSup_perm (tv : Cell → Score) {l₁ l₂ : List Cell}
    (h : List.Perm l₁ l₂) : listSup tv l₁ = listSup tv l₂ := by
  apply le_antisymm
  · exact listSup_le_iff.mpr fun m hm => le_listSup (h.mem_iff.mp hm)
  · exact listSup_le_iff.mpr fun m hm => le_listSup (h.mem_iff.mpr hm)

theorem foldl_min_init (tv : Cell → Score) :
    ∀ (l : List Cell) (a : Score),
      l.foldl (fun s m => min s (tv m)) a = min a (listInf tv l) := by
  intro l
  induction l with
  | nil => intro a; simp [listInf, min_eq_left le_top]
  | cons m rest ih =>
    intro a
    rw [List.foldl_cons, ih (min a (tv m)), listInf_cons, ← min_assoc]

theorem le_listInf_iff {tv : Cell → Score} {l : List Cell} {a : Score} :
    a ≤ listInf tv l ↔ ∀ m ∈ l, a ≤ tv m := by
  induction l with
  | nil => simp [listInf]
  | cons m rest ih =>
    rw [listInf_cons, le_min_iff, ih]
    simp

theorem listInf_le {tv : Cell → Score} {l : List Cell} {m : Cell}
    (hm : m ∈ l) : listInf tv l ≤ tv m := by
  induction l with
  | nil => cases hm
  | cons x rest ih =>
    rw [listInf_cons]
    rcases List.mem_cons.mp hm with rfl | h
    · exact min_le_left _ _
    · exact le_trans (min_le_right _ _) (ih h)

theorem listInf_perm (tv : Cell → Score) {l₁ l₂ : List Cell}
    (h : List.Perm l₁ l₂) : listInf tv l₁ = listInf tv l₂ := by
  apply le_antisymm
  · exact le_listInf_iff.mpr fun m hm => listInf_le (h.mem_iff.mpr hm)
  · exact le_listInf_iff.mpr fun m hm => listInf_le (h.mem_iff.mp hm)

theorem applyKillerMoveOrdering_perm (moves killers : List Cell) :
    List.Perm (applyKillerMoveOrdering moves killers) moves :=
  List.filter_append_perm _ moves

theorem applyKillerMoveOrdering_nil (moves : List Cell) :
    applyKillerMoveOrdering moves [] = moves := by
  simp [applyKillerMoveOrdering]

/-- The if-then-else used by the maximizing update is `max`. -/
theorem ite_lt_max {a b : Score} : (if a < b then b else a) = max a b := by
  rcases le_or_lt b a with h | h
  · rw [if_neg (not_lt.mpr h), max_eq_left h]
  · rw [if_pos h, max_eq_right h.le]

/-- The if-then-else used by the minimizing update is `min`. -/
theorem ite_lt_min {a b : Score} : (if b < a then b else a) = min a b := by
  rcases le_or_lt a b with h | h
  · rw [if_neg (not_lt.mpr h), min_eq_left h]
  · rw [if_pos h, min_eq_right h.le]

theorem maxLoop_bounds
    (child : Cell → Score → Score → KillerTable → Score × KillerTable)
    (tv : Cell → Score) (ply : Nat) (β : Score)
    (hchild : ∀ m α' kt', α' < β → boundsOK (child m α' β kt').1 (tv m) α' β) :
    ∀ (l : List Cell) (best : Option Cell) (maxS α : Score) (kt : KillerTable),
      maxS ≤ α → α < β →
      boundsOK (maxLoop child ply l best maxS α β kt).2.1
        (max maxS (listSup tv l)) α β := by
  intro l
  induction l with
  | nil =>
    intro best maxS α kt hma hab
    simp only [maxLoop, listSup, max_eq_left bot_le]
    exact ⟨fun _ => le_rfl, fun _ => le_rfl, fun _ _ => rfl⟩
  | cons m rest ih =>
    intro best maxS α kt hma hab
    have hb := hchild m α kt hab
    simp only [maxLoop]
    rw [listSup_cons]
    set v := (child m α β kt).1 with hv
    set kt1 := (child m α β kt).2 with hkt1
    by_cases hcut : β ≤ max α v
    · rw [if_pos hcut]
      dsimp only
      rw [ite_lt_max]
      have hβv : β ≤ v := by
        rcases le_max_iff.mp hcut with h | h
        · exact absurd h (not_le.mpr hab)
        · exact h
      have hvt : v ≤ tv m := hb.2.1 hβv
      refine ⟨?_, ?_, ?_⟩
      · intro hsa
        exact absurd (le_trans hβv (le_trans (le_max_right _ _) hsa))
          (not_le.mpr hab)
      · intro _
        exact max_le_max le_rfl (le_trans hvt (le_max_left _ _))
      · intro _ hlt
        exact absurd (lt_of_le_of_lt (le_trans hβv (le_max_right _ _)) hlt)
          (lt_irrefl β)
    · rw [if_neg hcut]
      rw [ite_lt_max]
      have hab1 : max α v < β := not_le.mp hcut
      set s := (maxLoop child ply rest (if maxS < v then some m else best)
        (max maxS v) (max α v) β kt1).2.1 with hsdef
      obtain ⟨B1, B2, B3⟩ := ih (if maxS < v then some m else best)
        (max maxS v) (max α v) kt1 (max_le_max hma le_rfl) hab1
      rw [← hsdef] at B1 B2 B3
      refine ⟨?_, ?_, ?_⟩
      · intro hs
        have hT := B1 (le_trans hs (le_max_left α _))
        have hvs : v ≤ s :=
          le_trans (le_trans (le_max_right maxS _) (le_max_left _ _)) hT
        have htm : tv m ≤ v := hb.1 (le_trans hvs hs)
        exact max_le
          (le_trans (le_trans (le_max_left maxS _) (le_max_left _ _)) hT)
          (max_le (le_trans htm hvs) (le_trans (le_max_right _ _) hT))
      · intro hs
        have hsT := B2 hs
        rcases le_max_iff.mp hsT with h | h
        · rcases le_max_iff.mp h with h2 | h2
          · exact le_trans h2 (le_max_left _ _)
          · have hvtm : v ≤ tv m := hb.2.1 (le_trans hs h2)
            exact le_trans (le_trans h2 hvtm)
              (le_trans (le_max_left _ _) (le_max_right _ _))
        · exact le_trans h (le_trans (le_max_right (tv m) _) (le_max_right maxS _))
      · intro h3a h3b
        by_cases hs1 : s ≤ max α v
        · have hT := B1 hs1
          have hsv : s ≤ v := by
            rcases le_max_iff.mp hs1 with h | h
            · exact absurd h (not_le.mpr h3a)
            · exact h
          have hvs : v ≤ s :=
            le_trans (le_trans (le_max_right maxS _) (le_max_left _ _)) hT
          have hveq : v = s := le_antisymm hvs hsv
          have hvtm : v = tv m := hb.2.2 (hveq ▸ h3a) (hveq ▸ h3b)
          apply le_antisymm
          · calc s = tv m := by rw [← hveq, hvtm]
              _ ≤ max (tv m) (listSup tv rest) := le_max_left _ _
              _ ≤ max maxS (max (tv m) (listSup tv rest)) := le_max_right _ _
          · refine max_le
              (le_trans (le_trans (le_max_left maxS _) (le_max_left _ _)) hT)
              (max_le ?_ (le_trans (le_max_right _ _) hT))
            rw [← hvtm]
            exact hvs
        · have hs2 : max α v < s := not_le.mp hs1
          have heq := B3 hs2 h3b
          have hvlt : v < s := lt_of_le_of_lt (le_max_right α _) hs2
          apply le_antisymm
          · rcases le_max_iff.mp (le_of_eq heq) with h | h
            · rcases le_max_iff.mp h with h2 | h2
              · exact le_trans h2 (le_max_left _ _)
              · exact absurd (lt_of_lt_of_le hvlt h2) (lt_irrefl _)
            · exact le_trans h (le_trans (le_max_right (tv m) _) (le_max_right maxS _))
          · refine max_le ?_ (max_le ?_ ?_)
            · rw [heq]
              exact le_trans (le_max_left maxS _) (le_max_left _ _)
            · by_cases hva : v ≤ α
              · exact le_trans (hb.1 hva) hvlt.le
              · have hvb : v < β := lt_trans hvlt h3b
                have h4 := hb.2.2 (not_le.mp hva) hvb
                rw [← h4]
                exact hvlt.le
            · rw [heq]
              exact le_max_right _ _

theorem minLoop_bounds
    (child : Cell → Score → Score → KillerTable → Score × KillerTable)
    (tv : Cell → Score) (ply : Nat) (α : Score)
    (hchild : ∀ m β' kt', α < β' → boundsOK (child m α β' kt').1 (tv m) α β') :
    ∀ (l : List Cell) (best : Option Cell) (minS β : Score) (kt : KillerTable),
      β ≤ minS → α < β →
      boundsOK (minLoop child ply l best minS α β kt).2.1
        (min minS (listInf tv l)) α β := by
  intro l
  induction l with
  | nil =>
    intro best minS β kt hbm hab
    simp only [minLoop, listInf, min_eq_left le_top]
    exact ⟨fun _ => le_rfl, fun _ => le_rfl, fun _ _ => rfl⟩
  | cons m rest ih =>
    intro best minS β kt hbm hab
    have hb := hchild m β kt hab
    simp only [minLoop]
    rw [listInf_cons]
    set v := (child m α β kt).1 with hv
    set kt1 := (child m α β kt).2 with hkt1
    by_cases hcut : min β v ≤ α
    · rw [if_pos hcut]
      dsimp only
      rw [ite_lt_min]
      have hvα : v ≤ α := by
        rcases min_le_iff.mp hcut with h | h
        · exact absurd h (not_le.mpr hab)
        · exact h
      have htv : tv m ≤ v := hb.1 hvα
      refine ⟨?_, ?_, ?_⟩
      · intro _
        exact le_min (min_le_left _ _)
          (le_trans (le_trans (min_le_right _ _) (min_le_left _ _)) htv)
      · intro hs
        exact absurd
          (le_trans hs (le_trans (min_le_right _ _) hvα)) (not_le.mpr hab)
      · intro hlt _
        exact absurd (lt_of_lt_of_le hlt (le_trans (min_le_right _ _) hvα))
          (lt_irrefl α)
    · rw [if_neg hcut]
      rw [ite_lt_min]
      have hab1 : α < min β v := not_le.mp hcut
      set s := (minLoop child ply rest (if v < minS then some m else best)
        (min minS v) α (min β v) kt1).2.1 with hsdef
      obtain ⟨B1, B2, B3⟩ := ih (if v < minS then some m else best)
        (min minS v) (min β v) kt1 (min_le_min hbm le_rfl) hab1
      rw [← hsdef] at B1 B2 B3
      refine ⟨?_, ?_, ?_⟩
      · intro hs
        have hT := B1 hs
        rcases min_le_iff.mp hT with h | h
        · rcases min_le_iff.mp h with h2 | h2
          · exact le_trans (min_le_left _ _) h2
          · have htv : tv m ≤ v := hb.1 (le_trans h2 hs)
            exact le_trans
              (le_trans (min_le_right _ _) (min_le_left _ _))
              (le_trans htv h2)
        · exact le_trans (le_trans (min_le_right _ _) (min_le_right (tv m) _)) h
      · intro hs
        have hsT := B2 (le_trans (min_le_left β v) hs)
        refine le_min
          (le_trans hsT (le_trans (min_le_left _ _) (min_le_left _ _))) (le_min ?_ ?_)
        · have hsv : s ≤ v :=
            le_trans hsT (le_trans (min_le_left _ _) (min_le_right minS _))
          have hvtm : v ≤ tv m := hb.2.1 (le_trans hs hsv)
          exact le_trans hsv hvtm
        · exact le_trans hsT (min_le_right _ _)
      · intro h3a h3b
        by_cases hs1 : min β v ≤ s
        · have hsT := B2 hs1
          have hvs : v ≤ s := by
            rcases min_le_iff.mp hs1 with h | h
            · exact absurd h (not_le.mpr h3b)
            · exact h
          have hsv : s ≤ v :=
            le_trans hsT (le_trans (min_le_left _ _) (min_le_right minS _))
          have hveq : v = s := le_antisymm hvs hsv
          have hvtm : v = tv m := hb.2.2 (hveq ▸ h3a) (hveq ▸ h3b)
          apply le_antisymm
          · refine le_min
              (le_trans hsT (le_trans (min_le_left _ _) (min_le_left _ _)))
              (le_min ?_ (le_trans hsT (min_le_right _ _)))
            rw [← hvtm]
            exact hsv
          · calc min minS (min (tv m) (listInf tv rest))
                ≤ min (tv m) (listInf tv rest) := min_le_right _ _
              _ ≤ tv m := min_le_left _ _
              _ = s := by rw [← hvtm, hveq]
        · have hs2 : s < min β v := not_le.mp hs1
          have heq := B3 h3a hs2
          have hvlt : s < v := lt_of_lt_of_le hs2 (min_le_right β _)
          apply le_antisymm
          · refine le_min ?_ (le_min ?_ ?_)
            · rw [heq]
              exact le_trans (min_le_left _ _) (min_le_left _ _)
            · by_cases hvb : β ≤ v
              · exact le_trans hvlt.le (hb.2.1 hvb)
              · have h4 := hb.2.2 (lt_trans h3a hvlt) (not_le.mp hvb)
                rw [← h4]
                exact hvlt.le
            · rw [heq]
              exact min_le_right _ _
          · rcases min_le_iff.mp (le_of_eq heq.symm) with h | h
            · rcases min_le_iff.mp h with h2 | h2
              · exact le_trans (min_le_left _ _) h2
              · exact absurd (lt_of_le_of_lt h2 hvlt) (lt_irrefl _)
            · exact le_trans
                (le_trans (min_le_right _ _) (min_le_right (tv m) _)) h

theorem foldl_snd_max (tv : Cell → Score) :
    ∀ (l : List Cell) (acc : Option Cell × Score),
      (l.foldl (fun acc m => if acc.2 < tv m then (some m, tv m) else acc) acc).2 =
        max acc.2 (listSup tv l) := by
  intro l
  induction l with
  | nil => intro acc; simp [listSup, max_eq_left bot_le]
  | cons m rest ih =>
    intro acc
    rw [List.foldl_cons, ih, listSup_cons, ← max_assoc]
    congr 1
    by_cases h : acc.2 < tv m
    · rw [if_pos h]
      exact (max_eq_right h.le).symm
    · rw [if_neg h]
      exact (max_eq_left (not_lt.mp h)).symm

theorem foldl_snd_min (tv : Cell → Score) :
    ∀ (l : List Cell) (acc : Option Cell × Score),
      (l.foldl (fun acc m => if tv m < acc.2 then (some m, tv m) else acc) acc).2 =
        min acc.2 (listInf tv l) := by
  intro l
  induction l with
  | nil => intro acc; simp [listInf, min_eq_left le_top]
  | cons m rest ih =>
    intro acc
    rw [List.foldl_cons, ih, listInf_cons, ← min_assoc]
    congr 1
    by_cases h : tv m < acc.2
    · rw [if_pos h]
      exact (min_eq_right h.le).symm
    · rw [if_neg h]
      exact (min_eq_left (not_lt.mp h)).symm

theorem boundsOK_refl (s α β : Score) : boundsOK s s α β :=
  ⟨fun _ => le_rfl, fun _ => le_rfl, fun _ _ => rfl⟩

theorem minimax_bounds (gen : Board → Nat → Nat → Nat → List Cell)
    (evalFn : Board → Nat → ℤ) (ai : Nat) :
    ∀ (depth : Nat) (b : Board) (maximizing : Bool) (ply : Nat)
      (α β : Score) (kt : KillerTable), α < β →
      boundsOK (minimax gen evalFn depth b α β maximizing ai ply kt).2.1
        (minimaxFull gen evalFn depth b maximizing ai ply).2 α β := by
  intro depth
  induction depth with
  | zero =>
    intro b maximizing ply α β kt hab
    rw [minimax.eq_def, minimaxFull.eq_def]
    by_cases hwin : checkGameOver b ≠ 0
    · by_cases hai : checkGameOver b = ai
      · have hwin' : ai ≠ 0 := hai ▸ hwin
        simp [hai, hwin']
        exact boundsOK_refl _ _ _
      · simp [hwin, hai]
        exact boundsOK_refl _ _ _
    · have hwin0 : checkGameOver b = 0 := not_ne_iff.mp hwin
      simp [hwin0]
      exact boundsOK_refl _ _ _
  | succ d ih =>
    intro b maximizing ply α β kt hab
    by_cases hwin : checkGameOver b ≠ 0
    · rw [minimax.eq_def, minimaxFull.eq_def]
      by_cases hai : checkGameOver b = ai
      · have hwin' : ai ≠ 0 := hai ▸ hwin
        simp [hai, hwin']
        exact boundsOK_refl _ _ _
      · simp [hwin, hai]
        exact boundsOK_refl _ _ _
    · have hwin0 : checkGameOver b = 0 := not_ne_iff.mp hwin
      cases maximizing
      · -- minimizing node
        rw [minimax.eq_def, minimaxFull.eq_def]
        simp only [hwin0, ne_eq, not_true_eq_false, if_false, ite_false,
          Bool.false_eq_true, reduceIte]
        rw [foldl_snd_min]
        rw [min_eq_right (le_top : listInf
          (fun m => (minimaxFull gen evalFn d
            (makeMove b m.1 m.2.1 m.2.2 (opp ai)) true ai (ply + 1)).2)
          (gen b (opp ai) (d + 1) ply) ≤ (⊤ : Score))]
        rw [← listInf_perm _ (applyKillerMoveOrdering_perm
          (gen b (opp ai) (d + 1) ply) (kt ply))]
        have h := minLoop_bounds
          (fun m α' β' kt' =>
            ((minimax gen evalFn d (makeMove b m.1 m.2.1 m.2.2 (opp ai))
              α' β' true ai (ply + 1) kt').2.1,
             (minimax gen evalFn d (makeMove b m.1 m.2.1 m.2.2 (opp ai))
              α' β' true ai (ply + 1) kt').2.2))
          (fun m => (minimaxFull gen evalFn d
            (makeMove b m.1 m.2.1 m.2.2 (opp ai)) true ai (ply + 1)).2)
          ply α
          (fun m β' kt' h1 =>
            ih (makeMove b m.1 m.2.1 m.2.2 (opp ai)) true (ply + 1) α β' kt' h1)
          (applyKillerMoveOrdering (gen b (opp ai) (d + 1) ply) (kt ply))
          none ⊤ β kt le_top hab
        rw [min_eq_right (le_top : listInf _ _ ≤ (⊤ : Score))] at h
        exact h
      · -- maximizing node
        rw [minimax.eq_def, minimaxFull.eq_def]
        simp only [hwin0, ne_eq, not_true_eq_false, if_false, ite_false,
          ite_true, reduceIte]
        rw [foldl_snd_max]
        rw [max_eq_right (bot_le : (⊥ : Score) ≤ listSup
          (fun m => (minimaxFull gen evalFn d
            (makeMove b m.1 m.2.1 m.2.2 ai) false ai (ply + 1)).2)
          (gen b ai (d + 1) ply))]
        rw [← listSup_perm _ (applyKillerMoveOrdering_perm
          (gen b ai (d + 1) ply) (kt ply))]
        have h := maxLoop_bounds
          (fun m α' β' kt' =>
            ((minimax gen evalFn d (makeMove b m.1 m.2.1 m.2.2 ai)
              α' β' false ai (ply + 1) kt').2.1,
             (minimax gen evalFn d (makeMove b m.1 m.2.1 m.2.2 ai)
              α' β' false ai (ply + 1) kt').2.2))
          (fun m => (minimaxFull gen evalFn d
            (makeMove b m.1 m.2.1 m.2.2 ai) false ai (ply + 1)).2)
          ply β
          (fun m α' kt' h1 =>
            ih (makeMove b m.1 m.2.1 m.2.2 ai) false (ply + 1) α' β kt' h1)
          (applyKillerMoveOrdering (gen b ai (d + 1) ply) (kt ply))
          none ⊥ α kt bot_le hab
        rw [max_eq_right (bot_le : (⊥ : Score) ≤ listSup _ _)] at h
        exact h

theorem refFoldMax_top (tv : Cell → Score) :
    ∀ (l : List Cell) (best : Option Cell),
      l.foldl (fun acc m => if acc.2 < tv m then (some m, tv m) else acc)
        (best, (⊤ : Score)) = (best, ⊤) := by
  intro l
  induction l with
  | nil => intro best; rfl
  | cons m rest ih =>
    intro best
    rw [List.foldl_cons]
    have h : (if ((best, (⊤ : Score)).2 < tv m) then (some m, tv m)
        else (best, (⊤ : Score))) = (best, (⊤ : Score)) := by
      dsimp only
      rw [if_neg not_top_lt]
    rw [h]
    exact ih best

theorem maxLoop_root
    (child : Cell → Score → Score → KillerTable → Score × KillerTable)
    (tv : Cell → Score) (ply : Nat)
    (hchild : ∀ m α' kt', α' < ⊤ → boundsOK (child m α' ⊤ kt').1 (tv m) α' ⊤) :
    ∀ (l : List Cell) (best : Option Cell) (maxS : Score) (kt : KillerTable),
      maxS ≠ ⊤ →
      (maxLoop child ply l best maxS maxS ⊤ kt).1 =
        (l.foldl (fun acc m => if acc.2 < tv m then (some m, tv m) else acc)
          (best, maxS)).1 ∧
      (maxLoop child ply l best maxS maxS ⊤ kt).2.1 =
        (l.foldl (fun acc m => if acc.2 < tv m then (some m, tv m) else acc)
          (best, maxS)).2 := by
  intro l
  induction l with
  | nil => intro best maxS kt hne; exact ⟨rfl, rfl⟩
  | cons m rest ih =>
    intro best maxS kt hne
    have hmt : maxS < ⊤ := lt_top_iff_ne_top.mpr hne
    have hb := hchild m maxS kt hmt
    simp only [maxLoop, List.foldl_cons]
    set v := (child m maxS ⊤ kt).1 with hv
    set kt1 := (child m maxS ⊤ kt).2 with hkt1
    by_cases hlt : maxS < v
    · simp only [if_pos hlt]
      rw [max_eq_right hlt.le]
      by_cases hvt : v = ⊤
      · have hcond : (⊤ : Score) ≤ v := hvt ▸ le_rfl
        rw [if_pos hcond]
        have htm : tv m = ⊤ :=
          top_le_iff.mp (le_trans hcond (hb.2.1 hcond))
        have hstep : (if (best, maxS).2 < tv m then (some m, tv m)
            else (best, maxS)) = (some m, tv m) := by
          dsimp only
          rw [if_pos (htm ▸ hmt)]
        rw [hstep, htm, refFoldMax_top]
        exact ⟨rfl, hvt⟩
      · have hcond : ¬ ((⊤ : Score) ≤ v) := fun h => hvt (top_le_iff.mp h)
        rw [if_neg hcond]
        have hveq : v = tv m := hb.2.2 hlt (lt_top_iff_ne_top.mpr hvt)
        have hstep : (if (best, maxS).2 < tv m then (some m, tv m)
            else (best, maxS)) = (some m, v) := by
          dsimp only
          rw [← hveq, if_pos hlt]
        rw [hstep]
        exact ih (some m) v kt1 hvt
    · simp only [if_neg hlt]
      rw [max_eq_left (not_lt.mp hlt)]
      rw [if_neg (fun h => hne (top_le_iff.mp h))]
      have hstep : (if (best, maxS).2 < tv m then (some m, tv m)
          else (best, maxS)) = (best, maxS) := by
        dsimp only
        rw [if_neg (not_lt.mpr (le_trans (hb.1 (not_lt.mp hlt)) (not_lt.mp hlt)))]
      rw [hstep]
      exact ih best maxS kt1 hne

/-- **C6**: with an infinite time limit, the move and score returned by the
alpha-beta-pruned minimax search at the root (full window, maximizing, ply 0,
killer table empty at ply 0 — as after `killerTable.clear()`) equal the move
and score of the unpruned full minimax over the same ply depth and the same
candidate sets, for every board, depth, AI player, candidate generator and
leaf evaluator. -/
theorem C6_alphabeta_equiv (gen : Board → Nat → Nat → Nat → List Cell)
    (evalFn : Board → Nat → ℤ) (depth : Nat) (b : Board) (ai : Nat)
    (kt : KillerTable) (hkt : kt 0 = []) :
    (minimax gen evalFn depth b ⊥ ⊤ true ai 0 kt).1 =
      (minimaxFull gen evalFn depth b true ai 0).1 ∧
    (minimax gen evalFn depth b ⊥ ⊤ true ai 0 kt).2.1 =
      (minimaxFull gen evalFn depth b true ai 0).2 := by
  cases depth with
  | zero =>
    rw [minimax.eq_def, minimaxFull.eq_def]
    by_cases hwin : checkGameOver b ≠ 0
    · by_cases hai : checkGameOver b = ai
      · have hwin' : ai ≠ 0 := hai ▸ hwin
        simp [hai, hwin']
      · simp [hwin, hai]
    · have hwin0 : checkGameOver b = 0 := not_ne_iff.mp hwin
      simp [hwin0]
  | succ d =>
    by_cases hwin : checkGameOver b ≠ 0
    · rw [minimax.eq_def, minimaxFull.eq_def]
      by_cases hai : checkGameOver b = ai
      · have hwin' : ai ≠ 0 := hai ▸ hwin
        simp [hai, hwin']
      · simp [hwin, hai]
    · have hwin0 : checkGameOver b = 0 := not_ne_iff.mp hwin
      rw [minimax.eq_def, minimaxFull.eq_def]
      simp only [hwin0, ne_eq, not_true_eq_false, if_false, ite_true, reduceIte]
      rw [hkt, applyKillerMoveOrdering_nil]
      exact maxLoop_root
        (fun m α' β' kt' =>
          ((minimax gen evalFn d (makeMove b m.1 m.2.1 m.2.2 ai)
            α' β' false ai (0 + 1) kt').2.1,
           (minimax gen evalFn d (makeMove b m.1 m.2.1 m.2.2 ai)
            α' β' false ai (0 + 1) kt').2.2))
        (fun m => (minimaxFull gen evalFn d
          (makeMove b m.1 m.2.1 m.2.2 ai) false ai (0 + 1)).2)
        0
        (fun m α' kt' h1 =>
          minimax_bounds gen evalFn ai d (makeMove b m.1 m.2.1 m.2.2 ai)
            false (0 + 1) α' ⊤ kt' h1)
        (gen b ai (d + 1) 0) none ⊥ kt bot_ne_top

/-- Witness for **C6**: a two-candidate generator on the empty board; the
pruned and unpruned searches agree at depth 2. -/
theorem C6_witness :
    (minimax (fun _ _ _ _ => [((0 : Int), (0 : Int), (0 : Int)),
        ((1 : Int), (1 : Int), (1 : Int))])
      (fun b _ => (b 0 0 0 : ℤ)) 2 emptyBoard ⊥ ⊤ true 1 0 emptyKillerTable).1 =
      (minimaxFull (fun _ _ _ _ => [((0 : Int), (0 : Int), (0 : Int)),
          ((1 : Int), (1 : Int), (1 : Int))])
        (fun b _ => (b 0 0 0 : ℤ)) 2 emptyBoard true 1 0).1 ∧
    (minimax (fun _ _ _ _ => [((0 : Int), (0 : Int), (0 : Int)),
        ((1 : Int), (1 : Int), (1 : Int))])
      (fun b _ => (b 0 0 0 : ℤ)) 2 emptyBoard ⊥ ⊤ true 1 0 emptyKillerTable).2.1 =
      (minimaxFull (fun _ _ _ _ => [((0 : Int), (0 : Int), (0 : Int)),
          ((1 : Int), (1 : Int), (1 : Int))])
        (fun b _ => (b 0 0 0 : ℤ)) 2 emptyBoard true 1 0).2 :=
  C6_alphabeta_equiv (fun _ _ _ _ => [((0 : Int), (0 : Int), (0 : Int)),
      ((1 : Int), (1 : Int), (1 : Int))])
    (fun b _ => (b 0 0 0 : ℤ)) 2 emptyBoard 1 emptyKillerTable rfl

end AlphaBeta

/-! ## The GomokuAI facade (C7)

`src/unnamed/part_002` wraps the search in a `GomokuAI` class whose
`getBestMove` first looks for an immediately winning move for the AI, then
for an immediately winning move of the opponent to block, and only then
delegates to `MinimaxAI.findBestMove`.  The `GomokuAI` class in
`src/src/ai/moveGeneration.ts` has no such fast paths: its `getBestMove`
always delegates to the search.  The search call is abstracted as a
`search : Board → Nat → AIResult` parameter; the wall-clock `thinkingTime`
field of the returned record is not modeled. -/

namespace AIFacade

/-- The 26-direction list of `GomokuAI.wouldWin` (part_002), in source
order. -/
def winDirections : List Dir :=
  [(1, 0, 0), (0, 1, 0), (0, 0, 1),
   (-1, 0, 0), (0, -1, 0), (0, 0, -1),
   (1, 1, 0), (1, -1, 0), (-1, 1, 0), (-1, -1, 0),
   (1, 0, 1), (1, 0, -1), (-1, 0, 1), (-1, 0, -1),
   (0, 1, 1), (0, 1, -1), (0, -1, 1), (0, -1, -1),
   (1, 1, 1), (1, 1, -1), (1, -1, 1), (1, -1, -1),
   (-1, 1, 1), (-1, 1, -1), (-1, -1, 1), (-1, -1, -1)]

/-- `GomokuAI.wouldWin(board, x, y, z, player)`: placing `player`'s stone at
(x, y, z) completes a run of at least `WIN_COUNT` in some direction — 1 for
the hypothetical stone plus the consecutive `player` stones in the positive
and negative directions. -/
def wouldWin (b : Board) (x y z : Int) (p : Nat) : Bool :=
  winDirections.any fun d =>
    decide (WIN_COUNT ≤
      1 + (runScan b p (x + d.1) (y + d.2.1) (z + d.2.2) d.1 d.2.1 d.2.2 8).1
        + (runScan b p (x - d.1) (y - d.2.1) (z - d.2.2)
            (-d.1) (-d.2.1) (-d.2.2) 8).1)

/-- `GomokuAI.findWinningMove(board, player)`: scan all cells in z, y, x
order and return the first empty cell where `wouldWin` holds. -/
def findWinningMove (b : Board) (p : Nat) : Option Cell :=
  allCells.find? fun c => (b c.2.2 c.2.1 c.1 == 0) && wouldWin b c.1 c.2.1 c.2.2 p

/-- The `AIResult` record of part_002 (without the wall-clock
`thinkingTime` field). -/
structure AIResult where
  move : Option Cell
  confidence : Nat
  evaluation : Int
  searchDepth : Nat
  nodesEvaluated : Nat

/-- `GomokuAI.getBestMove` of part_002: win fast path, then block fast
path, then the minimax search (abstracted as `search`). -/
def getBestMove (search : Board → Nat → AIResult) (b : Board) (ai : Nat) :
    AIResult :=
  match findWinningMove b ai with
  | some m => ⟨some m, 100, 1000000, 1, 1⟩
  | none =>
    match findWinningMove b (opp ai) with
    | some m => ⟨some m, 95, -900000, 1, 1⟩
    | none => search b ai

/-- `GomokuAI.getBestMove` of src/src/ai/moveGeneration.ts: no fast paths
at all — it always delegates to `MinimaxAI.findBestMove`. -/
def getBestMoveNoFastPath (search : Board → Nat → AIResult) (b : Board)
    (ai : Nat) : AIResult :=
  search b ai

/-- A stand-in for the minimax search, used to observe whether the facade
consulted it. -/
def stubSearch : Board → Nat → AIResult :=
  fun _ _ => ⟨some (7, 7, 7), 50, 0, 3, 100⟩

end AIFacade

/-- Player 1 holds (1..4, 0, 0): both (0, 0, 0) and (5, 0, 0) are empty
in-bounds cells completing a run of five. -/
def c7Board : Board := fun z y x =>
  if z = 0 ∧ y = 0 ∧ 1 ≤ x ∧ x ≤ 4 then 1 else 0

theorem c7Board_no2 : ∀ z y x : Int, c7Board z y x ≠ 2 := by
  intro z y x
  unfold c7Board
  split <;> decide

theorem noStone_wouldWin_false (b : Board) (p : Nat)
    (h : ∀ z y x : Int, b z y x ≠ p) (x y z : Int) :
    AIFacade.wouldWin b x y z p = false := by
  unfold AIFacade.wouldWin
  rw [List.any_eq_false]
  intro d _
  simp only [Bool.not_eq_true]
  have h1 := @runScan_fst_zero b p (x + d.1) (y + d.2.1) (z + d.2.2)
    d.1 d.2.1 d.2.2 (h _ _ _) 8
  have h2 := @runScan_fst_zero b p (x - d.1) (y - d.2.1) (z - d.2.2)
    (-d.1) (-d.2.1) (-d.2.2) (h _ _ _) 8
  rw [h1, h2]
  decide

theorem findWinningMove_none_of_no_stone (b : Board) (p : Nat)
    (h : ∀ z y x : Int, b z y x ≠ p) :
    AIFacade.findWinningMove b p = none := by
  unfold AIFacade.findWinningMove
  rw [List.find?_eq_none]
  intro c _
  simp [noStone_wouldWin_false b p h c.1 c.2.1 c.2.2]

/-- **C7** (counterexample).  On `c7Board` both (0, 0, 0) and (5, 0, 0) are
empty cells whose occupation completes a run of five for player 1, yet
`getBestMove` returns (0, 0, 0) — the first winning cell in z, y, x scan
order — and not (5, 0, 0), so "returns exactly that move" fails for the
cell (5, 0, 0).  Moreover the moveGeneration.ts variant of `getBestMove`
has no fast path: on the same board it returns the search's answer
(the stub's (7, 7, 7)), not a winning cell. -/
theorem C7_counterexample :
    (c7Board 0 0 0 = 0 ∧ AIFacade.wouldWin c7Board 0 0 0 1 = true) ∧
    (c7Board 0 0 5 = 0 ∧ AIFacade.wouldWin c7Board 5 0 0 1 = true) ∧
    (AIFacade.getBestMove AIFacade.stubSearch c7Board 1).move =
      some ((0 : Int), (0 : Int), (0 : Int)) ∧
    some ((0 : Int), (0 : Int), (0 : Int)) ≠
      some ((5 : Int), (0 : Int), (0 : Int)) ∧
    (AIFacade.getBestMoveNoFastPath AIFacade.stubSearch c7Board 1).move =
      some ((7 : Int), (7 : Int), (7 : Int)) := by
  refine ⟨⟨by decide, by decide⟩, ⟨by decide, by decide⟩, rfl, by decide, rfl⟩

/-- **C7** (amended).  For the part_002 `GomokuAI`: whenever
`findWinningMove` finds a winning cell for the AI (it returns the first
empty cell in z, y, x scan order whose occupation completes a run of at
least five), `getBestMove` returns exactly that cell with confidence 100,
evaluation 1,000,000, searchDepth 1 and nodesEvaluated 1, for every search
procedure — the deep search is never consulted; failing that, whenever the
opponent has such an immediately winning cell, `getBestMove` returns the
first such cell with confidence 95 and evaluation −900,000, again for
every search procedure.  The returned fast-path cell is genuinely an empty
cell completing a run of at least five. -/
theorem C7_fast_paths (search : Board → Nat → AIFacade.AIResult) (b : Board)
    (ai : Nat) :
    (∀ m, AIFacade.findWinningMove b ai = some m →
      AIFacade.getBestMove search b ai = ⟨some m, 100, 1000000, 1, 1⟩) ∧
    (AIFacade.findWinningMove b ai = none →
      ∀ m, AIFacade.findWinningMove b (opp ai) = some m →
        AIFacade.getBestMove search b ai = ⟨some m, 95, -900000, 1, 1⟩) ∧
    (∀ p m, AIFacade.findWinningMove b p = some m →
      b m.2.2 m.2.1 m.1 = 0 ∧ AIFacade.wouldWin b m.1 m.2.1 m.2.2 p = true) := by
  refine ⟨?_, ?_, ?_⟩
  · intro m hm
    unfold AIFacade.getBestMove
    rw [hm]
  · intro hnone m hm
    unfold AIFacade.getBestMove
    rw [hnone, hm]
  · intro p m hm
    have h := List.find?_some hm
    simp only [Bool.and_eq_true, beq_iff_eq] at h
    exact ⟨h.1, h.2⟩

/-! ## findBestMove with a real clock (C8)

`MinimaxAI.findBestMove` clears the killer table, runs iterative deepening
from depth 1 to maxDepth, keeps the deepest completed result, and when no
depth produced a move falls back to the first element of
`generateOrderedMoves(board, aiPlayer, 10)`.  Time: `oracle t` models the
t-th evaluation of `Date.now() - this.startTime > this.maxTime`; the tick
counter and the `timeUp` flag are threaded through the search state.  The
two comparator-based sorts inside `generateOrderedMoves` compare
floating-point scores (`Math.sqrt` distances, `quickEvaluateMove` scores),
and are abstracted as the parameters `sortA` (the
`orderMovesByGomokuStrategy` sort taken in the `stoneCount <= 4` branch)
and `sortB` (the score-descending sort of the scored-move branch, composed
with the score-annotation map, which leaves coordinates unchanged); both
are assumed only to permute their input. -/

/-- `countStones(board)`: the number of nonempty cells. -/
def countStones (b : Board) : Nat :=
  (allCells.filter fun c => b c.2.2 c.2.1 c.1 != 0).length

/-- `generateOrderedMoves(board, player, maxMoves)`: all legal moves; the
`sortA` ordering when at most 4 stones are on the board, otherwise the
`sortB` ordering sliced to the first `maxMoves`. -/
def generateOrderedMoves (sortA sortB : Board → Nat → List Cell → List Cell)
    (b : Board) (p : Nat) (maxMoves : Nat) : List Cell :=
  if countStones b ≤ 4 then sortA b p (generateAllMoves b p)
  else (sortB b p (generateAllMoves b p)).take maxMoves

/-- First-occurrence deduplication (a JS `Set` keeps insertion order, and
`Array.from` iterates it in that order). -/
def dedupCells (l : List Cell) : List Cell :=
  l.foldl (fun acc m => if m ∈ acc then acc else acc ++ [m]) []

/-- The offsets -radius..radius in ascending order. -/
def localOffsets (radius : Nat) : List Int :=
  (List.range (2 * radius + 1)).map fun i => (i : Int) - (radius : Int)

/-- The `localPositions` set of `generateLocalMoves`: for every stone (in
z, y, x scan order) every in-bounds position within `radius` (offsets in
dz, dy, dx loop order), first occurrence kept. -/
def localPositions (b : Board) (radius : Nat) : List Cell :=
  dedupCells <|
    allCells.flatMap fun c =>
      if b c.2.2 c.2.1 c.1 ≠ 0 then
        (localOffsets radius).flatMap fun dz =>
          (localOffsets radius).flatMap fun dy =>
            (localOffsets radius).filterMap fun dx =>
              if isInBounds (c.1 + dx) (c.2.1 + dy) (c.2.2 + dz) then
                some (c.1 + dx, c.2.1 + dy, c.2.2 + dz)
              else none
      else []

/-- `generateLocalMoves(board, player, radius)`: the legal ones among the
local positions. -/
def generateLocalMoves (b : Board) (p : Nat) (radius : Nat) : List Cell :=
  (localPositions b radius).filter fun c => isLegalMove b c.1 c.2.1 c.2.2 p

/-- `MinimaxAI.generateMovesForDepth` (its `depth` and `currentDepth`
parameters are unused in the source body, so they are omitted here):
ordered moves capped at 40 up to 6 stones; deduplicated local-radius-2 plus
ordered-20 moves capped at 30 up to 20 stones; local-radius-1 moves, or
ordered moves capped at 15 when there are none, beyond that. -/
def generateMovesForDepth (sortA sortB : Board → Nat → List Cell → List Cell)
    (b : Board) (p : Nat) : List Cell :=
  if countStones b ≤ 6 then generateOrderedMoves sortA sortB b p 40
  else if countStones b ≤ 20 then
    (dedupCells
      (generateLocalMoves b p 2 ++ generateOrderedMoves sortA sortB b p 20)).take 30
  else if (generateLocalMoves b p 1).length > 0 then generateLocalMoves b p 1
  else generateOrderedMoves sortA sortB b p 15

/-- The timed maximizing loop: `if (this.timeUp) break` at the top of each
iteration; a timed-out child's score 0 still participates in the max and
alpha updates, exactly as in the source. -/
def maxLoopT
    (child : Cell → Score → Score → KillerTable → Nat →
      Option Cell × Score × KillerTable × Nat × Bool) (ply : Nat) :
    List Cell → Option Cell → Score → Score → Score → KillerTable → Nat →
      Bool → Option Cell × Score × KillerTable × Nat × Bool
  | [], best, maxS, _, _, kt, t, tu => (best, maxS, kt, t, tu)
  | m :: rest, best, maxS, α, β, kt, t, tu =>
    if tu then (best, maxS, kt, t, tu)
    else
      match child m α β kt t with
      | (_, s, kt1, t1, tu1) =>
        let best1 := if maxS < s then some m else best
        let max1 := if maxS < s then s else maxS
        let α1 := max α s
        if β ≤ α1 then (best1, max1, storeKillerMove kt1 ply m, t1, tu1)
        else maxLoopT child ply rest best1 max1 α1 β kt1 t1 tu1

/-- The timed minimizing loop. -/
def minLoopT
    (child : Cell → Score → Score → KillerTable → Nat →
      Option Cell × Score × KillerTable × Nat × Bool) (ply : Nat) :
    List Cell → Option Cell → Score → Score → Score → KillerTable → Nat →
      Bool → Option Cell × Score × KillerTable × Nat × Bool
  | [], best, minS, _, _, kt, t, tu => (best, minS, kt, t, tu)
  | m :: rest, best, minS, α, β, kt, t, tu =>
    if tu then (best, minS, kt, t, tu)
    else
      match child m α β kt t with
      | (_, s, kt1, t1, tu1) =>
        let best1 := if s < minS then some m else best
        let min1 := if s < minS then s else minS
        let β1 := min β s
        if β1 ≤ α then (best1, min1, storeKillerMove kt1 ply m, t1, tu1)
        else minLoopT child ply rest best1 min1 α β1 kt1 t1 tu1

/-- `MinimaxAI.minimax` with the time check live: the entry check consults
the oracle and on firing sets `timeUp` and returns `(null, 0)`.  The state
`(tick, timeUp)` is threaded; `timeUp` is `false` whenever the function is
entered, since every loop breaks before calling a child once the flag is
set. -/
def minimaxT (sortA sortB : Board → Nat → List Cell → List Cell)
    (evalFn : Board → Nat → ℤ) (oracle : Nat → Bool) :
    Nat → Board → Score → Score → Bool → Nat → Nat → KillerTable → Nat →
      Option Cell × Score × KillerTable × Nat × Bool
  | depth, b, α, β, maximizing, ai, ply, kt, t =>
    if oracle t then (none, sc 0, kt, t + 1, true)
    else
      if checkGameOver b ≠ 0 then
        if checkGameOver b = ai then (none, sc (1000000 - ply), kt, t + 1, false)
        else (none, sc (-1000000 + ply), kt, t + 1, false)
      else
        match depth with
        | 0 => (none, sc (evalFn b ai), kt, t + 1, false)
        | d + 1 =>
          let currentPlayer := if maximizing then ai else opp ai
          let moves := applyKillerMoveOrdering
            (generateMovesForDepth sortA sortB b currentPlayer) (kt ply)
          if maximizing then
            maxLoopT (fun m α' β' kt' t' =>
              minimaxT sortA sortB evalFn oracle d
                (makeMove b m.1 m.2.1 m.2.2 currentPlayer) α' β' false ai
                (ply + 1) kt' t')
              ply moves none ⊥ α β kt (t + 1) false
          else
            minLoopT (fun m α' β' kt' t' =>
              minimaxT sortA sortB evalFn oracle d
                (makeMove b m.1 m.2.1 m.2.2 currentPlayer) α' β' true ai
                (ply + 1) kt' t')
              ply moves none ⊤ α β kt (t + 1) false

/-- The iterative-deepening loop of `findBestMove`: break when `timeUp`;
keep the result when the depth completed in time with a move; stop early on
a score of at least 900,000. -/
def deepenLoop (sortA sortB : Board → Nat → List Cell → List Cell)
    (evalFn : Board → Nat → ℤ) (oracle : Nat → Bool) (b : Board) (ai : Nat) :
    List Nat → Option Cell × Score → KillerTable → Nat → Bool →
      (Option Cell × Score) × KillerTable × Nat × Bool
  | [], best, kt, t, tu => (best, kt, t, tu)
  | d :: rest, best, kt, t, tu =>
    if tu then (best, kt, t, tu)
    else
      match minimaxT sortA sortB evalFn oracle d b ⊥ ⊤ true ai 0 kt t with
      | (mv, s, kt1, t1, tu1) =>
        let best1 := if !tu1 && mv.isSome then (mv, s) else best
        if sc 900000 ≤ s then (best1, kt1, t1, tu1)
        else deepenLoop sortA sortB evalFn oracle b ai rest best1 kt1 t1 tu1

/-- The `if (!bestMove) { const moves = generateOrderedMoves(board,
aiPlayer, 10); if (moves.length > 0) bestMove = moves[0]; }` fallback at
the end of `findBestMove`. -/
def fallbackMove (quick : List Cell) : Option Cell → Option Cell
  | some m => some m
  | none => quick.head?

/-- `MinimaxAI.findBestMove(board, aiPlayer, maxDepth, timeLimit)`: clears
the killer table, runs iterative deepening over depths 1..maxDepth, and
falls back to the first quick-ordered move when no depth produced one (the
returned score stays at its initial -Infinity then, as in the source). -/
def findBestMoveT (sortA sortB : Board → Nat → List Cell → List Cell)
    (evalFn : Board → Nat → ℤ) (oracle : Nat → Bool)
    (b : Board) (ai : Nat) (maxDepth : Nat) : Option Cell × Score :=
  let r := deepenLoop sortA sortB evalFn oracle b ai
    ((List.range maxDepth).map fun i => i + 1) (none, ⊥) emptyKillerTable 0 false
  (fallbackMove (generateOrderedMoves sortA sortB b ai 10) r.1.1, r.1.2)

theorem sc_le_sc {a b : ℤ} : sc a ≤ sc b ↔ a ≤ b := by
  simp [sc]

theorem dedupCells_subset : ∀ (l acc : List Cell) (m : Cell),
    m ∈ l.foldl (fun a x => if x ∈ a then a else a ++ [x]) acc →
      m ∈ acc ∨ m ∈ l
  | [], _, _, h => Or.inl h
  | x :: xs, acc, m, h => by
    simp only [List.foldl_cons] at h
    rcases dedupCells_subset xs _ m h with h1 | h1
    · by_cases hx : x ∈ acc
      · rw [if_pos hx] at h1
        exact Or.inl h1
      · rw [if_neg hx] at h1
        rcases List.mem_append.mp h1 with h2 | h2
        · exact Or.inl h2
        · simp only [List.mem_singleton] at h2
          exact Or.inr (h2 ▸ List.mem_cons_self x xs)
    · exact Or.inr (List.mem_cons_of_mem x h1)

theorem localPositions_inBounds {b : Board} {r : Nat} {c : Cell}
    (h : c ∈ localPositions b r) : isInBounds c.1 c.2.1 c.2.2 = true := by
  unfold localPositions dedupCells at h
  rcases dedupCells_subset _ _ _ h with h1 | h1
  · cases h1
  · simp only [List.mem_flatMap] at h1
    obtain ⟨a, _, h2⟩ := h1
    by_cases hs : b a.2.2 a.2.1 a.1 ≠ 0
    · rw [if_pos hs] at h2
      simp only [List.mem_flatMap, List.mem_filterMap] at h2
      obtain ⟨dz, _, dy, _, dx, _, h3⟩ := h2
      by_cases hib : isInBounds (a.1 + dx) (a.2.1 + dy) (a.2.2 + dz) = true
      · rw [if_pos hib] at h3
        cases h3
        exact hib
      · rw [if_neg hib] at h3
        cases h3
    · rw [if_neg hs] at h2
      cases h2

theorem generateLocalMoves_nil (b : Board) (p : Nat) (r : Nat)
    (h : generateAllMoves b p = []) : generateLocalMoves b p r = [] := by
  unfold generateLocalMoves
  rw [List.filter_eq_nil_iff]
  intro c hc
  have hib := localPositions_inBounds hc
  have hcm : c ∈ allCells := mem_allCells_isInBounds.mpr hib
  have hall := List.filter_eq_nil_iff.mp h c hcm
  simpa using hall

theorem generateOrderedMoves_nil
    (sortA sortB : Board → Nat → List Cell → List Cell)
    (hA : ∀ b p l, List.Perm (sortA b p l) l)
    (hB : ∀ b p l, List.Perm (sortB b p l) l)
    (b : Board) (p : Nat) (n : Nat)
    (h : generateAllMoves b p = []) :
    generateOrderedMoves sortA sortB b p n = [] := by
  unfold generateOrderedMoves
  rw [h]
  split
  · exact (hA b p []).eq_nil
  · rw [(hB b p []).eq_nil]
    exact List.take_nil

theorem generateOrderedMoves_ne_nil
    (sortA sortB : Board → Nat → List Cell → List Cell)
    (hA : ∀ b p l, List.Perm (sortA b p l) l)
    (hB : ∀ b p l, List.Perm (sortB b p l) l)
    (b : Board) (p : Nat) (n : Nat) (hn : 0 < n)
    (h : generateAllMoves b p ≠ []) :
    generateOrderedMoves sortA sortB b p n ≠ [] := by
  unfold generateOrderedMoves
  split
  · intro hc
    have hp := hA b p (generateAllMoves b p)
    rw [hc] at hp
    exact h hp.symm.eq_nil
  · cases hs : sortB b p (generateAllMoves b p) with
    | nil =>
      have hp := hB b p (generateAllMoves b p)
      rw [hs] at hp
      exact absurd hp.symm.eq_nil h
    | cons x xs =>
      cases n with
      | zero => omega
      | succ k => simp [List.take_succ_cons]

theorem generateMovesForDepth_nil
    (sortA sortB : Board → Nat → List Cell → List Cell)
    (hA : ∀ b p l, List.Perm (sortA b p l) l)
    (hB : ∀ b p l, List.Perm (sortB b p l) l)
    (b : Board) (p : Nat)
    (h : generateAllMoves b p = []) :
    generateMovesForDepth sortA sortB b p = [] := by
  unfold generateMovesForDepth
  have ho40 := generateOrderedMoves_nil sortA sortB hA hB b p 40 h
  have ho20 := generateOrderedMoves_nil sortA sortB hA hB b p 20 h
  have ho15 := generateOrderedMoves_nil sortA sortB hA hB b p 15 h
  have hl2 := generateLocalMoves_nil b p 2 h
  have hl1 := generateLocalMoves_nil b p 1 h
  split_ifs
  · exact ho40
  · rw [hl2, ho20]
    rfl
  · exact hl1
  · exact ho15

theorem minimaxT_root_none
    (sortA sortB : Board → Nat → List Cell → List Cell)
    (evalFn : Board → Nat → ℤ) (oracle : Nat → Bool)
    (d : Nat) (b : Board) (α β : Score) (ai ply : Nat) (kt : KillerTable)
    (t : Nat) (hgen : generateMovesForDepth sortA sortB b ai = []) :
    (minimaxT sortA sortB evalFn oracle d b α β true ai ply kt t).1 = none := by
  rw [minimaxT.eq_def]
  dsimp only
  by_cases ho : oracle t = true
  · rw [if_pos ho]
  · rw [if_neg ho]
    by_cases hw : checkGameOver b ≠ 0
    · rw [if_pos hw]
      by_cases hai : checkGameOver b = ai
      · rw [if_pos hai]
      · rw [if_neg hai]
    · rw [if_neg hw]
      cases d with
      | zero => rfl
      | succ k =>
        simp [hgen, maxLoopT, applyKillerMoveOrdering]

theorem deepenLoop_tu (sortA sortB : Board → Nat → List Cell → List Cell)
    (evalFn : Board → Nat → ℤ) (oracle : Nat → Bool) (b : Board) (ai : Nat)
    (ds : List Nat) (best : Option Cell × Score) (kt : KillerTable) (t : Nat) :
    deepenLoop sortA sortB evalFn oracle b ai ds best kt t true =
      (best, kt, t, true) := by
  cases ds <;> rfl

theorem deepenLoop_none (sortA sortB : Board → Nat → List Cell → List Cell)
    (evalFn : Board → Nat → ℤ) (oracle : Nat → Bool) (b : Board) (ai : Nat)
    (hroot : ∀ d kt t,
      (minimaxT sortA sortB evalFn oracle d b ⊥ ⊤ true ai 0 kt t).1 = none) :
    ∀ (ds : List Nat) (best : Option Cell × Score) (kt : KillerTable)
      (t : Nat) (tu : Bool), best.1 = none →
      (deepenLoop sortA sortB evalFn oracle b ai ds best kt t tu).1.1 = none
  | [], best, kt, t, tu, hb => hb
  | d :: rest, best, kt, t, tu, hb => by
    rw [deepenLoop]
    cases tu with
    | true => simpa using hb
    | false =>
      simp only [Bool.false_eq_true, if_false]
      have hmv := hroot d kt t
      rcases hr : minimaxT sortA sortB evalFn oracle d b ⊥ ⊤ true ai 0 kt t with
        ⟨mv, s, kt1, t1, tu1⟩
      rw [hr] at hmv
      simp only at hmv
      subst hmv
      simp only [Option.isSome_none, Bool.and_false, Bool.false_eq_true, if_false]
      split
      · exact hb
      · exact deepenLoop_none sortA sortB evalFn oracle b ai hroot rest best kt1
          t1 tu1 hb

/-- **C8**: `findBestMove` returns `move = none` if and only if the AI
player has no legal move (`generateAllMoves`, which coincides with
`getLegalMoves`, is empty) — for every clock behavior, killer-table
evolution, evaluator, and move ordering; and when the time budget expires
before any search depth completes (the deadline check fires at every
consultation), the returned move is exactly the head of the quick ordering
`generateOrderedMoves(board, aiPlayer, 10)`, not `none`. -/
theorem C8_no_move_iff (sortA sortB : Board → Nat → List Cell → List Cell)
    (hA : ∀ b p l, List.Perm (sortA b p l) l)
    (hB : ∀ b p l, List.Perm (sortB b p l) l)
    (evalFn : Board → Nat → ℤ) (oracle : Nat → Bool)
    (b : Board) (ai : Nat) (maxDepth : Nat) :
    ((findBestMoveT sortA sortB evalFn oracle b ai maxDepth).1 = none ↔
       generateAllMoves b ai = []) ∧
    generateAllMoves b ai = getLegalMoves b ai ∧
    ((∀ t, oracle t = true) →
      (findBestMoveT sortA sortB evalFn oracle b ai maxDepth).1 =
        (generateOrderedMoves sortA sortB b ai 10).head?) := by
  refine ⟨⟨?_, ?_⟩, rfl, ?_⟩
  · intro hnone
    by_contra hne
    unfold findBestMoveT at hnone
    dsimp only at hnone
    rcases hr : (deepenLoop sortA sortB evalFn oracle b ai
        ((List.range maxDepth).map fun i => i + 1) (none, ⊥) emptyKillerTable
        0 false).1.1 with _ | m
    · rw [hr] at hnone
      simp only [fallbackMove] at hnone
      have hq := generateOrderedMoves_ne_nil sortA sortB hA hB b ai 10
        (by norm_num) hne
      cases hql : generateOrderedMoves sortA sortB b ai 10 with
      | nil => exact hq hql
      | cons x xs =>
        rw [hql] at hnone
        simp at hnone
    · rw [hr] at hnone
      simp only [fallbackMove] at hnone
      cases hnone
  · intro hempty
    unfold findBestMoveT
    dsimp only
    have hgen := generateMovesForDepth_nil sortA sortB hA hB b ai hempty
    have hroot : ∀ d kt t,
        (minimaxT sortA sortB evalFn oracle d b ⊥ ⊤ true ai 0 kt t).1 = none :=
      fun d kt t =>
        minimaxT_root_none sortA sortB evalFn oracle d b ⊥ ⊤ ai 0 kt t hgen
    rw [deepenLoop_none sortA sortB evalFn oracle b ai hroot
      ((List.range maxDepth).map fun i => i + 1) (none, ⊥) emptyKillerTable
      0 false rfl]
    simp only [fallbackMove]
    rw [generateOrderedMoves_nil sortA sortB hA hB b ai 10 hempty]
    rfl
  · intro hall
    unfold findBestMoveT
    dsimp only
    have hroot0 : ∀ (ds : List Nat) (kt : KillerTable) (t : Nat)
        (best : Option Cell × Score),
        (deepenLoop sortA sortB evalFn oracle b ai ds best kt t false).1.1 =
          best.1 := by
      intro ds
      induction ds with
      | nil => intro kt t best; rfl
      | cons d rest ih =>
        intro kt t best
        rw [deepenLoop]
        simp only [Bool.false_eq_true, if_false]
        have hfire : minimaxT sortA sortB evalFn oracle d b ⊥ ⊤ true ai 0 kt t =
            (none, sc 0, kt, t + 1, true) := by
          rw [minimaxT.eq_def]
          dsimp only
          rw [if_pos (hall t)]
        rw [hfire]
        have h9 : ¬ (sc 900000 ≤ sc 0) := by
          rw [sc_le_sc]
          norm_num
        simp only [Option.isSome_none, Bool.and_false, Bool.false_eq_true,
          if_false, if_neg h9]
        rw [deepenLoop_tu]
    rw [hroot0]
    rfl

set_option maxHeartbeats 4000000 in
/-- **C8** (witness): identity orderings, an immediately-expiring clock, and
the empty board: the engine still returns the first quick-ordered move
(0, 0, 0) rather than `none`, and the two legal-move generators agree. -/
theorem C8_witness :
    (findBestMoveT (fun _ _ l => l) (fun _ _ l => l) (fun _ _ => 0)
        (fun _ => true) emptyBoard 1 3).1 =
      some ((0 : Int), (0 : Int), (0 : Int)) ∧
    generateAllMoves emptyBoard 1 = getLegalMoves emptyBoard 1 := by
  have h := C8_no_move_iff (fun _ _ l => l) (fun _ _ l => l)
    (fun _ _ _ => List.Perm.refl _) (fun _ _ _ => List.Perm.refl _)
    (fun _ _ => 0) (fun _ => true) emptyBoard 1 3
  refine ⟨?_, h.2.1⟩
  rw [h.2.2 (fun t => rfl)]
  decide

set_option maxHeartbeats 4000000 in
/-- **C7** (witness): on the open-four board the win fast path fires at
(4, 0, 0); on `c7Board` viewed from player 2 the block fast path fires at
player 1's winning cell (0, 0, 0). -/
theorem C7_witness :
    AIFacade.getBestMove AIFacade.stubSearch fourOpenBoard 1 =
      ⟨some ((4 : Int), (0 : Int), (0 : Int)), 100, 1000000, 1, 1⟩ ∧
    AIFacade.getBestMove AIFacade.stubSearch c7Board 2 =
      ⟨some ((0 : Int), (0 : Int), (0 : Int)), 95, -900000, 1, 1⟩ :=
  ⟨(C7_fast_paths AIFacade.stubSearch fourOpenBoard 1).1 (4, 0, 0) (by decide),
   (C7_fast_paths AIFacade.stubSearch c7Board 2).2.1
     (findWinningMove_none_of_no_stone c7Board 2 c7Board_no2) (0, 0, 0)
     (by decide)⟩

end Gomoku
